import Mathlib

/-!
# Verification of the unthink-foundation-express route generation layer

Shallow embedding of `src/express/unthink-express-generator.ts` and
`src/express/express-resource.ts` (plus the deprecated `expressResource`
variant), together with theorems (named C1..C10) relating the code's
behavior to the properties stated in the repository's natural-language
specification.

Modelling conventions:
* JavaScript truthiness is modelled explicitly: the source tests values such
  as `result.value`, `cookie.maxAge` or `currentValue` with `if (x)`, which
  is false for `undefined`, `null`, `false`, `0`, `""` and true otherwise.
  Optional fields are `Option _` and carry their own truthiness test.
* Observable effects on the outbound response (header writes, cookie-setter
  calls, body writes, `next(...)` calls and the request-logger diagnostics)
  are recorded in a single ordered event trace stored on the response value,
  so ordering between writes, forwards and diagnostics is provable.
* Express semantics used by the source: `resp.set`/`getHeader` are
  case-insensitive (modelled by storing lowercased names); a body write sets
  the `headersSent` flag; `next(err)` with a truthy `err` dispatches to the
  route's error handler.
-/

namespace Unthink

/-- A JSON-serializable value, the payload type carried by results
(`value?: unknown` in the source is only ever a JSON payload per the spec). -/
inductive Json where
  | null
  | bool (b : Bool)
  | num (n : Int)
  | str (s : String)
  | arr (elems : List Json)
  | obj (fields : List (String × Json))

/-- JavaScript truthiness of a JSON value: `null`, `false`, `0` and `""` are
falsy; arrays and objects are always truthy. -/
def Json.truthy : Json → Bool
  | .null => false
  | .bool b => b
  | .num n => n != 0
  | .str s => s != ""
  | .arr _ => true
  | .obj _ => true

/-- Truthiness of an optional JSON value (`undefined` is falsy). -/
def optJsonTruthy : Option Json → Bool
  | none => false
  | some v => v.truthy

/-- Truthiness of an optional string field (absent or `""` is falsy). -/
def optStrTruthy : Option String → Bool
  | none => false
  | some s => s != ""

/-- Truthiness of an optional boolean field (absent or `false` is falsy). -/
def optBoolTruthy : Option Bool → Bool
  | none => false
  | some b => b

/-- Truthiness of an optional numeric field (absent or `0` is falsy). -/
def optIntTruthy : Option Int → Bool
  | none => false
  | some n => n != 0

/-- A JavaScript `Date` (cookie `expires`); as an object it is always truthy. -/
structure JsDate where
  ms : Int
deriving DecidableEq

/-- The `sameSite` cookie attribute: `boolean | 'lax' | 'strict' | 'none'`. -/
inductive SameSiteVal where
  | strict
  | lax
  | noneVal
  | flag (b : Bool)
deriving DecidableEq

/-- Truthiness of a `sameSite` value: the string variants are non-empty hence
truthy; the boolean variant is its own truth value. -/
def SameSiteVal.truthy : SameSiteVal → Bool
  | .flag b => b
  | _ => true

/-- Truthiness of the optional `sameSite` field. -/
def optSameSiteTruthy : Option SameSiteVal → Bool
  | none => false
  | some v => v.truthy

/-- The `Cookie` shape from the foundation core: name, value and the optional
attributes the generator forwards to `resp.cookie`. -/
structure Cookie where
  name : String
  value : String
  domain : Option String := none
  expires : Option JsDate := none
  httpOnly : Option Bool := none
  maxAge : Option Int := none
  path : Option String := none
  sameSite : Option SameSiteVal := none
  secure : Option Bool := none
  overwrite : Option Bool := none
deriving DecidableEq

/-- The express `CookieOptions` object built by `setCookie`; a `none` field
models a property that was never added to the object. -/
structure CookieOptions where
  domain : Option String := none
  expires : Option JsDate := none
  httpOnly : Option Bool := none
  maxAge : Option Int := none
  path : Option String := none
  sameSite : Option SameSiteVal := none
  secure : Option Bool := none
deriving DecidableEq

/-- Common fields of every result kind (the foundation `Result` base class).
The source field `local` is a Lean keyword and is embedded as `locals`. -/
structure ResultBase where
  status : Nat
  headers : Option (List (String × String)) := none
  cookies : Option (List Cookie) := none
  locals : Option (List (String × Json)) := none
  redirectUrl : Option String := none

/-- `DataResult`: a result carrying a JSON `value`. -/
structure DataResult extends ResultBase where
  value : Option Json := none

/-- `ViewResult`: a result carrying a `template` id and renderer data. -/
structure ViewResult extends ResultBase where
  template : Option String := none
  value : Option Json := none

/-- `MiddlewareResult`: a result additionally signalling pipeline progression.
The source fields `continue` and `end` are Lean keywords and are embedded as
`continueFlag` and `endFlag`. -/
structure MiddlewareResult extends ResultBase where
  continueFlag : Option Bool := none
  endFlag : Option Bool := none
  value : Option Json := none

/-- A value thrown by a handler or passed to `next(...)`. The constructors
model the `instanceof` tests performed by the error handlers. -/
inductive ErrPayload where
  | empty
  | jsError (msg : String)
  | dataResult (r : DataResult)
  | viewResult (r : ViewResult)
  | middlewareResult (r : MiddlewareResult)
  | value (v : Json)

/-- JavaScript truthiness of an error payload: `undefined`/`null` is falsy,
`Error` instances and result objects are truthy, other values carry their
own truthiness. -/
def ErrPayload.truthy : ErrPayload → Bool
  | .empty => false
  | .value v => v.truthy
  | _ => true

/-- A response body produced by one of the terminal write calls. -/
inductive Body where
  | json (v : Option Json)
  | text (s : String)
  | empty
  | redirectTo (url : String)
  | raw (v : Option Json)

/-- One `resp.cookie(name, value, options)` call as issued by `setCookie`. -/
structure CookieCall where
  name : String
  value : String
  options : CookieOptions

/-- Observable events on a request/response pair, in program order.  The
`log*` constructors are the `req.log.error` / `console.log` diagnostics of the
source, recorded structurally. -/
inductive Event where
  | headerSet (name value : String)
  | cookieSet (call : CookieCall)
  | write (b : Body)
  | nextCalled (err : Option ErrPayload)
  | logSkipContentType
  | logReplaceHeader (name oldVal newVal : String)
  | logKeepCookie (name : String)
  | logOverwriteCookie (name : String)
  | logAlreadySent
  | logNoError
  | logUnexpectedError
  | logUnsupportedStatus (status : Nat)
  | logValueShouldBeAbsent (status : Nat)
  | logValueMissing
  | logBasePathDefault (resourceName : String)

/-- Association-list lookup keyed by strings (object property access). -/
def getVal {α : Type} : List (String × α) → String → Option α
  | [], _ => none
  | p :: rest, k => if p.1 = k then some p.2 else getVal rest k

/-- Association-list upsert: replace the first binding of the key, or append
a new binding (object property assignment). -/
def setVal {α : Type} : List (String × α) → String → α → List (String × α)
  | [], k, v => [(k, v)]
  | p :: rest, k, v => if p.1 = k then (k, v) :: rest else p :: setVal rest k v

/-- Association-list in-place update: apply `f` to the first binding of the
key, leave the list unchanged when the key is absent. -/
def updateVal {α : Type} : List (String × α) → String → (α → α) → List (String × α)
  | [], _, _ => []
  | p :: rest, k, f => if p.1 = k then (p.1, f p.2) :: rest else p :: updateVal rest k f

/-- Shallow object spread `{ ...old, ...upd }`: keys of `upd` win. The key
order differs from JavaScript but lookups agree. -/
def mergeAList {α : Type} (old upd : List (String × α)) : List (String × α) :=
  old.filter (fun p => (getVal upd p.1).isNone) ++ upd

/-- Lowercase a single ASCII character (kernel-computable, unlike the
library's `Char.toLower` path through `String.mapAux`). -/
def lowerChar (c : Char) : Char :=
  if 65 ≤ c.toNat ∧ c.toNat ≤ 90 then Char.ofNat (c.toNat + 32) else c

/-- Lowercase a string; header-name comparison in express is
case-insensitive. -/
def lowerStr (s : String) : String :=
  String.mk (s.data.map lowerChar)

/-- The outbound express `Response`, including the ordered event trace. -/
structure Resp where
  headersSent : Bool := false
  statusCode : Nat := 200
  headers : List (String × String) := []
  locals : List (String × Json) := []
  body : Option Body := none
  events : List Event := []

/-- The inbound express `Request` (the parts the generator reads). -/
structure Req where
  query : List (String × String) := []
  params : List (String × String) := []
  body : Option Json := none
  headers : Option (List (String × String)) := none
  cookies : Option (List (String × String)) := none
  path : String := "/"

/-- Record a diagnostic event (a `req.log.error` / `console.log` call); the
request logger's output is kept in the response trace so a single ordered
trace covers the whole request. -/
def Resp.logEv (resp : Resp) (e : Event) : Resp :=
  { resp with events := resp.events ++ [e] }

/-- `resp.getHeader(name)`: case-insensitive header lookup. -/
def Resp.getHeader (resp : Resp) (name : String) : Option String :=
  getVal resp.headers (lowerStr name)

/-- `resp.set(name, value)`: case-insensitive header store. -/
def Resp.setH (resp : Resp) (name value : String) : Resp :=
  { resp with
    headers := setVal resp.headers (lowerStr name) value,
    events := resp.events ++ [.headerSet name value] }

/-- `resp.contentType(t)`: sets the content-type header directly (this call
bypasses `setHeaders`). -/
def Resp.contentType (resp : Resp) (t : String) : Resp :=
  resp.setH "Content-Type" t

/-- `resp.cookie(name, value, options)`. -/
def Resp.cookie (resp : Resp) (c : CookieCall) : Resp :=
  { resp with events := resp.events ++ [.cookieSet c] }

/-- All `resp.cookie` calls recorded so far, in order. -/
def Resp.cookieCalls (resp : Resp) : List CookieCall :=
  resp.events.filterMap fun
    | .cookieSet c => some c
    | _ => none

/-- `resp.status(s).json(v)`: write a JSON body.  A write event is recorded
unconditionally: it models the attempt to write (the underlying framework
raises on a second attempt, it never silently skips). -/
def Resp.sendStatusJson (resp : Resp) (status : Nat) (v : Option Json) : Resp :=
  { resp with
    statusCode := status, body := some (.json v), headersSent := true,
    events := resp.events ++ [.write (.json v)] }

/-- `resp.status(s).send(text)`: write a text body. -/
def Resp.sendText (resp : Resp) (status : Nat) (s : String) : Resp :=
  { resp with
    statusCode := status, body := some (.text s), headersSent := true,
    events := resp.events ++ [.write (.text s)] }

/-- `resp.status(204).end()`: finish with an empty body. -/
def Resp.sendEmpty (resp : Resp) (status : Nat) : Resp :=
  { resp with
    statusCode := status, body := some Body.empty, headersSent := true,
    events := resp.events ++ [.write Body.empty] }

/-- `resp.redirect(status, url)`. -/
def Resp.sendRedirect (resp : Resp) (status : Nat) (url : String) : Resp :=
  { resp with
    statusCode := status, body := some (.redirectTo url), headersSent := true,
    events := resp.events ++ [.write (.redirectTo url)] }

/-- `resp.status(s).send(value)` with a non-string value (used by
`viewEndHandler`). -/
def Resp.sendRaw (resp : Resp) (status : Nat) (v : Option Json) : Resp :=
  { resp with
    statusCode := status, body := some (.raw v), headersSent := true,
    events := resp.events ++ [.write (.raw v)] }

/-- Record a `next(...)` call. -/
def Resp.nextEv (resp : Resp) (err : Option ErrPayload) : Resp :=
  { resp with events := resp.events ++ [.nextCalled err] }

/-! ## Response writer (source: `setHeaders`, `setCookie`, `setCookies`) -/

/-- The `if (currentValue)` diagnostic of `setHeaders`: log the replacement
when the response already holds a truthy (non-empty) value for the name. -/
def replaceLog (resp : Resp) (name newValue : String) : Resp :=
  match resp.getHeader name with
  | some old => if old ≠ "" then resp.logEv (.logReplaceHeader name old newValue) else resp
  | none => resp

/-- The body of `setHeaders`' `for (const name in headers)` loop. -/
def setHeadersLoop (resp : Resp) : List (String × String) → Resp
  | [] => resp
  | (name, newValue) :: rest =>
    if lowerStr name = "content-type" then
      setHeadersLoop (resp.logEv .logSkipContentType) rest
    else
      setHeadersLoop ((replaceLog resp name newValue).setH name newValue) rest

/-- `setHeaders(req, resp, headers?)`: skip the call when `headers` is
absent, otherwise run the loop. (`req` is only used for its logger, which is
recorded in the response trace.) -/
def setHeaders (_req : Req) (resp : Resp) : Option (List (String × String)) → Resp
  | none => resp
  | some headers => setHeadersLoop resp headers

/-- The options object built by `setCookie`: it starts empty and a property is
added only when the cookie's corresponding field is truthy (the source's
`if (cookie.domain) { options.domain = cookie.domain }` chain). -/
def setCookieOptions (cookie : Cookie) : CookieOptions :=
  let options : CookieOptions := {}
  let options := if optStrTruthy cookie.domain then { options with domain := cookie.domain } else options
  let options := if cookie.expires.isSome then { options with expires := cookie.expires } else options
  let options := if optBoolTruthy cookie.httpOnly then { options with httpOnly := cookie.httpOnly } else options
  let options := if optIntTruthy cookie.maxAge then { options with maxAge := cookie.maxAge } else options
  let options := if optStrTruthy cookie.path then { options with path := cookie.path } else options
  let options := if optSameSiteTruthy cookie.sameSite then { options with sameSite := cookie.sameSite } else options
  let options := if optBoolTruthy cookie.secure then { options with secure := cookie.secure } else options
  options

/-- `setCookie(resp, cookie)`: build the options object and call
`resp.cookie(cookie.name, cookie.value, options)`. -/
def setCookie (resp : Resp) (cookie : Cookie) : Resp :=
  resp.cookie ⟨cookie.name, cookie.value, setCookieOptions cookie⟩

/-- The body of `setCookies`' loop over the result cookies when the request
carries a cookie map: keep an existing cookie unless `overwrite` is truthy. -/
def setCookiesLoop (reqCookies : List (String × String)) (resp : Resp) : List Cookie → Resp
  | [] => resp
  | cookie :: rest =>
    let currentCookie := getVal reqCookies cookie.name
    if optStrTruthy currentCookie ∧ ¬ optBoolTruthy cookie.overwrite then
      setCookiesLoop reqCookies (resp.logEv (.logKeepCookie cookie.name)) rest
    else
      let resp :=
        if optStrTruthy currentCookie ∧ optBoolTruthy cookie.overwrite then
          resp.logEv (.logOverwriteCookie cookie.name)
        else resp
      setCookiesLoop reqCookies (setCookie resp cookie) rest

/-- `setCookies(req, resp, cookies?)`: when `req.cookies` is absent every
cookie is applied unconditionally; otherwise the conflict-checking loop runs. -/
def setCookies (req : Req) (resp : Resp) : Option (List Cookie) → Resp
  | none => resp
  | some cookies =>
    match req.cookies with
    | some reqCookies => setCookiesLoop reqCookies resp cookies
    | none => cookies.foldl setCookie resp

/-! ## Context builder (source: `convertHeaders`, `convertCookies`,
`buildRouteContext`, `mergeLocals`) -/

/-- `convertHeaders(req)`: copy only the header entries with a truthy value. -/
def convertHeaders (req : Req) : Option (List (String × String)) :=
  match req.headers with
  | none => none
  | some hs => some (hs.filter (fun p => p.2 ≠ ""))

/-- `convertCookies(req)`: each request cookie becomes a `{name, value}`
cookie with no flags. -/
def convertCookies (req : Req) : Option (List Cookie) :=
  match req.cookies with
  | none => none
  | some cs => some (cs.map fun p => { name := p.1, value := p.2 })

/-- The normalized `RouteContext` passed to handlers; the source field
`local` is embedded as `locals`. -/
structure RouteContext where
  query : List (String × String)
  params : List (String × String)
  body : Option Json
  headers : Option (List (String × String))
  cookies : Option (List Cookie)
  locals : List (String × Json)
  path : String

/-- `buildRouteContext(req, resp)`. -/
def buildRouteContext (req : Req) (resp : Resp) : RouteContext :=
  { query := req.query
    params := req.params
    body := req.body
    headers := convertHeaders req
    cookies := convertCookies req
    locals := resp.locals
    path := req.path }

/-- `mergeLocals(result, resp)`: when the result carries locals, shallow-merge
them into `resp.locals` with the result's keys winning. -/
def mergeLocals (result : ResultBase) (resp : Resp) : Resp :=
  match result.locals with
  | none => resp
  | some l => { resp with locals := mergeAList resp.locals l }

/-! ## Result dispatcher and error handler, DATA kind
(source: `redirect`, `buildDataHandler`, `dataErrorHandler`) -/

/-- `redirect(result, req, resp)`: on 301/302 with a truthy redirect url,
apply headers and cookies and issue the redirect (`.ok (resp, true)`); on
301/302 without one, throw (`.error`); otherwise report `false`. -/
def redirect (result : ResultBase) (req : Req) (resp : Resp) :
    Except ErrPayload (Resp × Bool) :=
  if (result.status = 301 ∨ result.status = 302) ∧ optStrTruthy result.redirectUrl then
    let resp := setHeaders req resp result.headers
    let resp := setCookies req resp result.cookies
    .ok (resp.sendRedirect result.status (result.redirectUrl.getD ""), true)
  else if (result.status = 301 ∨ result.status = 302) ∧ ¬ optStrTruthy result.redirectUrl then
    .error (.jsError "When view result has a status of 301/302 the redirect url MUST BE specified")
  else
    .ok (resp, false)

/-- A data-route handler: it is given the built context and either returns a
`DataResult` (the awaited value of the sync or async call) or throws. -/
def DataHandler : Type := RouteContext → Except ErrPayload DataResult

/-- `buildDataHandler(handler)` applied to a request/response: run the
handler, merge locals, branch on the result, and either complete the response
(`none`) or call `next(error)` (`some error`, also recorded in the trace).
Any value thrown by the handler or by `redirect` is caught into the same
`next(error)` call. -/
def buildDataHandler (handler : DataHandler) (req : Req) (resp : Resp) :
    Resp × Option ErrPayload :=
  match handler (buildRouteContext req resp) with
  | .error e => (resp.nextEv (some e), some e)
  | .ok result =>
    let resp := mergeLocals result.toResultBase resp
    if result.status = 200 ∧ optJsonTruthy result.value then
      let resp := setHeaders req resp result.headers
      let resp := setCookies req resp result.cookies
      (resp.sendStatusJson result.status result.value, none)
    else if result.status = 204 ∧ ¬ optJsonTruthy result.value then
      let resp := setHeaders req resp result.headers
      let resp := setCookies req resp result.cookies
      (resp.sendEmpty 204, none)
    else
      match redirect result.toResultBase req resp with
      | .ok (resp, true) => (resp, none)
      | .ok (resp, false) =>
        let error : ErrPayload :=
          if result.status = 200 ∧ ¬ optJsonTruthy result.value then
            .jsError "The value MUST be set for data results when the status is 200."
          else if result.status = 204 ∧ optJsonTruthy result.value then
            .jsError "The value SHOULD NOT be set for data results when the status is 204"
          else
            .dataResult result
        (resp.nextEv (some error), some error)
      | .error e => (resp.nextEv (some e), some e)

/-- The status/value validation shared by the two `instanceof` arms of
`dataErrorHandler` (the source casts both classes to `Result` and reads
`result.status` / `result.value` / `result.headers` / `result.cookies`). -/
def dataErrorValidate (base : ResultBase) (value : Option Json) (req : Req) (resp : Resp) : Resp :=
  if base.status ≠ 400 ∧ base.status ≠ 401 ∧ base.status ≠ 404 then
    (resp.logEv (.logUnsupportedStatus base.status)).sendStatusJson 500 (some (.str "Unknown error."))
  else if (base.status = 401 ∨ base.status = 404) ∧ optJsonTruthy value then
    (resp.logEv (.logValueShouldBeAbsent base.status)).sendStatusJson 500 (some (.str "unknown error"))
  else if base.status = 400 ∧ ¬ optJsonTruthy value then
    (resp.logEv .logValueMissing).sendStatusJson 500 (some (.str "unknown error"))
  else
    let resp := setHeaders req resp base.headers
    let resp := setCookies req resp base.cookies
    resp.sendStatusJson base.status value

/-- `dataErrorHandler(err, req, resp, next)`. -/
def dataErrorHandler (err : ErrPayload) (req : Req) (resp : Resp) : Resp :=
  if resp.headersSent then
    resp.logEv .logAlreadySent
  else if ¬ err.truthy then
    (resp.logEv .logNoError).sendStatusJson 500 (some (.str "Unknown error."))
  else
    match err with
    | .dataResult r => dataErrorValidate r.toResultBase r.value req resp
    | .middlewareResult r => dataErrorValidate r.toResultBase r.value req resp
    | _ => (resp.logEv .logUnexpectedError).sendStatusJson 500 (some (.str "Unknown error."))

/-- The data-route pipeline for a single handler: the generated route wires
`dataErrorHandler` as the route's error handler, and express dispatches a
`next(error)` call with a truthy error to it.  (With a falsy error express
would fall through to its default handling, outside this package.) -/
def runDataRoute (handler : DataHandler) (req : Req) (resp : Resp) : Resp :=
  match buildDataHandler handler req resp with
  | (resp, none) => resp
  | (resp, some e) => if e.truthy then dataErrorHandler e req resp else resp

/-! ## Error handler, VIEW kind (source: `buildViewErrorHandler`) -/

/-- The argument handed to the view renderer by the view error handler: the
error result, which is a `ViewResult` or a `MiddlewareResult`. -/
inductive VMResult where
  | view (v : ViewResult)
  | mw (m : MiddlewareResult)

/-- A view renderer: `(Result, RouteContext) -> string`, may throw. -/
def Renderer : Type := VMResult → RouteContext → Except ErrPayload String

/-- The `try { render ... } catch` tail of `buildViewErrorHandler`: render
the error result with a fresh context, apply headers and cookies and respond;
a render failure falls back to a generic 500 text. -/
def viewErrorRender (render : Renderer) (arg : VMResult) (base : ResultBase)
    (req : Req) (resp : Resp) : Resp :=
  match render arg (buildRouteContext req resp) with
  | .ok view =>
    let resp := setHeaders req resp base.headers
    let resp := setCookies req resp base.cookies
    resp.sendText base.status view
  | .error _ =>
    (resp.logEv .logUnexpectedError).sendText 500 "Unknown error."

/-- `buildViewErrorHandler(render)` applied to an error payload. -/
def buildViewErrorHandler (render : Renderer) (err : ErrPayload) (req : Req) (resp : Resp) : Resp :=
  if resp.headersSent then
    resp.logEv .logAlreadySent
  else if ¬ err.truthy then
    (resp.logEv .logNoError).sendText 500 "Unknown error."
  else
    match err with
    | .viewResult v => viewErrorRender render (.view v) v.toResultBase req resp
    | .middlewareResult m => viewErrorRender render (.mw m) m.toResultBase req resp
    | _ => (resp.logEv .logUnexpectedError).sendText 500 "Unknown error."

/-! ## Middleware adapter (source: `dataEndHandler`, `viewEndHandler`,
`middlewareHandler`, `buildMiddlewareHandler`) -/

/-- `dataEndHandler(result, resp)`: terminal JSON write for a middleware
result on a data route. -/
def dataEndHandler (result : MiddlewareResult) (resp : Resp) : Resp :=
  resp.sendStatusJson result.status result.value

/-- `viewEndHandler(result, resp)`: terminal HTML write for a middleware
result on a view route. -/
def viewEndHandler (result : MiddlewareResult) (resp : Resp) : Resp :=
  (resp.contentType "text/html").sendRaw result.status result.value

/-- A middleware end handler, `(MiddlewareResult, Response) -> void`. -/
def MiddlewareEndHandler : Type := MiddlewareResult → Resp → Resp

/-- `middlewareHandler(result, endHandler, req, resp, next)`, translated
statement by statement.  Note the source's first branch calls `next(result)`
WITHOUT returning, so execution continues into `setHeaders`/`setCookies`
even after forwarding the result as an error. -/
def middlewareHandler (result : MiddlewareResult) (endHandler : MiddlewareEndHandler)
    (req : Req) (resp : Resp) : Resp :=
  let resp := mergeLocals result.toResultBase resp
  let resp :=
    if ¬ optBoolTruthy result.continueFlag ∧ ¬ optBoolTruthy result.endFlag then
      resp.nextEv (some (.middlewareResult result))
    else resp
  let resp := setHeaders req resp result.headers
  let resp := setCookies req resp result.cookies
  if optBoolTruthy result.endFlag then
    endHandler result resp
  else if optBoolTruthy result.continueFlag then
    resp.nextEv none
  else
    resp

/-- A typed middleware handler: returns a `MiddlewareResult` (the awaited
value of the sync or async call) or throws. -/
def MwHandler : Type := RouteContext → Except ErrPayload MiddlewareResult

/-- `buildMiddlewareHandler(handler, endHandler)` applied to a
request/response.  The sync path and the `asyncMiddlewareHandler` path both
reduce to one `middlewareHandler` call on the awaited result; a throw during
handler evaluation is caught into `next(error)`. -/
def buildMiddlewareHandler (handler : MwHandler) (endHandler : MiddlewareEndHandler)
    (req : Req) (resp : Resp) : Resp :=
  match handler (buildRouteContext req resp) with
  | .ok result => middlewareHandler result endHandler req resp
  | .error e => resp.nextEv (some e)

/-! ## Path composer

Modelled from the spec: `urlPathJoin` lives in `src/utility/url-path-join`,
which is not included under `src/`; the definition below follows the spec's
rules (section 4.1): empty-string fragments are skipped entirely; leading
slashes are stripped from every fragment but the first; trailing slashes are
stripped from every fragment but the last; on the last fragment a run of
trailing slashes collapses to exactly one; surviving fragments are joined
with a single `/`; the empty input yields the empty string. -/

/-- Strip every leading `/` from a fragment. -/
def stripLeadingSlashes (s : String) : String :=
  String.mk (s.data.dropWhile (· = '/'))

/-- Strip every trailing `/` from a fragment. -/
def stripTrailingSlashes (s : String) : String :=
  String.mk ((s.data.reverse.dropWhile (· = '/')).reverse)

/-- Collapse a run of one-or-more trailing slashes into exactly one. -/
def collapseTrailingSlashes (s : String) : String :=
  if s.data.getLast? = some '/' then stripTrailingSlashes s ++ "/" else s

/-- Modelled from the spec: the path composer `urlPathJoin` (see the section
comment above). -/
def urlPathJoin (fragments : List String) : String :=
  let surviving := fragments.filter (· ≠ "")
  let n := surviving.length
  let processed := surviving.enum.map fun p =>
    let f := if p.1 ≠ 0 then stripLeadingSlashes p.2 else p.2
    if p.1 ≠ n - 1 then stripTrailingSlashes f else collapseTrailingSlashes f
  String.intercalate "/" processed

/-- The spec's own examples for the path composer (section 8), checked
against the spec-modelled definition: `urlPathJoin([])` is `""`,
`urlPathJoin(["a/", "/b/", "/c"])` is `"a/b/c"`, and `urlPathJoin(["/a//"])`
is `"/a/"`. -/
lemma urlPathJoin_spec_examples :
    urlPathJoin [] = "" ∧
    urlPathJoin ["a/", "/b/", "/c"] = "a/b/c" ∧
    urlPathJoin ["/a//"] = "/a/" := by
  exact ⟨rfl, rfl, rfl⟩

/-! ## Route/definition generator (source: `UnthinkExpressGenerator.generateDefinition`)

`generateRoute` wires the per-route router (error handler, middleware chain,
method dispatchers); its internals are the functions embedded above.  For the
grouping/mounting claim the generated router is represented by the route
definition it was generated from, and `generateRoute`'s contribution is its
returned pair `{ prefix: routeDef.prefix ?? '', router }`. -/

/-- The slice of a `ResourceRouteDefinition` that definition generation
reads.  The source field `prefix` is embedded as `prefixStr`. -/
structure RouteDef where
  path : String
  prefixStr : Option String := none
deriving DecidableEq

/-- A mounted sub-router: its mount path and the per-route routers mounted
onto it via `router.use(...)`, in order. -/
structure GeneratedDefinition where
  path : String
  mounted : List RouteDef
deriving DecidableEq

/-- The slice of a `ResourceDefinition` that definition generation reads. -/
structure ResourceDef where
  name : String := ""
  basePath : Option String := none
  routes : List RouteDef := []

/-- The loop body of `generateDefinition`: for each route, compute its
prefix (`routeDef.prefix ?? ''`); on a first-seen prefix create the mount
entry, defaulting a falsy `basePath` to `/` with a diagnostic and computing
the mount path as `urlPathJoin([prefix ? prefix : '/', basePath])`; then
mount the route's router onto the prefix's sub-router. -/
def generateDefinitionLoop (res : ResourceDef)
    (acc : List (String × GeneratedDefinition)) (logs : List Event) :
    List RouteDef → List (String × GeneratedDefinition) × List Event
  | [] => (acc, logs)
  | rd :: rest =>
    let pfx := rd.prefixStr.getD ""
    let (acc, logs) :=
      if (getVal acc pfx).isSome then (acc, logs)
      else
        let basePath := res.basePath
        let (logs, basePath) :=
          if ¬ optStrTruthy basePath then
            (logs ++ [.logBasePathDefault res.name], "/")
          else (logs, basePath.getD "/")
        let urlPath := urlPathJoin [if pfx = "" then "/" else pfx, basePath]
        (acc ++ [(pfx, { path := urlPath, mounted := [] })], logs)
    let acc := updateVal acc pfx (fun g => { g with mounted := g.mounted ++ [rd] })
    generateDefinitionLoop res acc logs rest

/-- `generateDefinition(resourceDefinition)`: the generated definitions in
first-seen prefix order (the JavaScript `Map` preserves insertion order and
`Array.from(map.values())` reads it back in that order), together with the
diagnostics. -/
def generateDefinition (res : ResourceDef) : List GeneratedDefinition × List Event :=
  let (acc, logs) := generateDefinitionLoop res [] [] res.routes
  (acc.map (·.2), logs)

/-! ## Deprecated `expressResource` and `expressMiddleware`
(source: `express-resource.ts` and its deprecated variant)

These functions mutate shared JavaScript objects, so they are embedded over
an explicit heap: function objects, middleware arrays and route objects are
identified by numbers, and the store maps each id to its current contents.
`Object.assign({}, x)` is a field-wise copy which shares the referenced ids;
mutating a route object through the copy's `routes` array is visible through
the caller's original reference to the same id. -/

/-- The middleware type tag written by `expressMiddleware`. -/
inductive MwType where
  | raw
  | data
  | view
deriving DecidableEq

/-- The duck-typed tag properties a function object may carry
(`__expressMiddleware` and `__middlewareType`). -/
structure FnTagState where
  hasExpressTag : Bool := false
  mwType : Option MwType := none
deriving DecidableEq

/-- The tag state `expressMiddleware` leaves on a function object. -/
def rawTagged : FnTagState :=
  { hasExpressTag := true, mwType := some .raw }

/-- One entry of a route's `methods` map: either a bare handler function or
a `{ handler, middleware? }` object. -/
inductive MethodEntry where
  | bare (handler : Nat)
  | withMw (handler : Nat) (middleware : Option Nat)
deriving DecidableEq

/-- A route definition object (`routes` array element): an optional
middleware array id and the `methods` map.  A `none` method entry models a
key whose value is undefined (the source throws on it). -/
structure RouteObj where
  middleware : Option Nat := none
  methods : List (String × Option MethodEntry) := []
deriving DecidableEq

/-- The heap: tags of function objects, contents of middleware arrays,
route objects, routes arrays, and the next fresh array id. -/
structure Store where
  fnTags : Nat → FnTagState
  fnArr : Nat → List Nat
  routeObj : Nat → RouteObj
  routeArr : Nat → List Nat
  nextId : Nat

/-- A `ResourceDefinition` value: plain fields plus references into the
store (`middleware` is an array id, `routes` a routes-array id). -/
structure ResourceVal where
  name : String := ""
  basePath : Option String := none
  middleware : Option Nat := none
  routes : Nat

/-- `expressMiddleware(handler)`: writes the two tag properties onto the
same function object and returns it. -/
def expressMiddlewareFn (σ : Store) (f : Nat) : Store × Nat :=
  ({ σ with fnTags := fun x => if x = f then rawTagged else σ.fnTags x }, f)

/-- `middleware.map(expressMiddleware)`: tags every function object in the
array; the mapped array holds the same function objects. -/
def mapExpressMiddleware (σ : Store) (fns : List Nat) : Store × List Nat :=
  (fns.foldl (fun s f => (expressMiddlewareFn s f).1) σ, fns)

/-- Allocate a fresh array object holding the given function ids. -/
def allocFnArr (σ : Store) (l : List Nat) : Store × Nat :=
  ({ σ with
      fnArr := fun x => if x = σ.nextId then l else σ.fnArr x,
      nextId := σ.nextId + 1 },
   σ.nextId)

/-- `x?.map(expressMiddleware)`: optional chaining; on a present array, tag
its elements and produce a new array object with the same elements. -/
def mapMwOpt (σ : Store) : Option Nat → Store × Option Nat
  | none => (σ, none)
  | some aid =>
    let fns := σ.fnArr aid
    let (σ, fns') := mapExpressMiddleware σ fns
    let (σ, nid) := allocFnArr σ fns'
    (σ, some nid)

/-- Process one `methods` entry: throw on an undefined entry; wrap the
middleware of a `{ handler, middleware? }` entry; leave a bare handler
untouched (`'handler' in obj` is false for a function). -/
def processMethodEntry (σ : Store) : Option MethodEntry → Except String (Store × Option MethodEntry)
  | none => .error "Handler must be defined."
  | some (.bare h) => .ok (σ, some (.bare h))
  | some (.withMw h mw) =>
    let (σ, mw') := mapMwOpt σ mw
    .ok (σ, some (.withMw h mw'))

/-- The `for (const method in route.methods)` loop: each entry is processed
and written back in place. -/
def processMethods (σ : Store) :
    List (String × Option MethodEntry) → Except String (Store × List (String × Option MethodEntry))
  | [] => .ok (σ, [])
  | (m, e) :: rest => do
    let (σ, e') ← processMethodEntry σ e
    let (σ, rest') ← processMethods σ rest
    .ok (σ, (m, e') :: rest')

/-- Process one route of the shared `routes` array: wrap its middleware and
its method-level middleware, mutating the route object in the store. -/
def processRoute (σ : Store) (rid : Nat) : Except String Store := do
  let ro := σ.routeObj rid
  let (σ1, mw') := mapMwOpt σ ro.middleware
  let σ2 := { σ1 with
    routeObj := fun x => if x = rid then { σ1.routeObj rid with middleware := mw' } else σ1.routeObj x }
  let (σ3, ms) ← processMethods σ2 ro.methods
  .ok { σ3 with
    routeObj := fun x => if x = rid then { σ3.routeObj rid with methods := ms } else σ3.routeObj x }

/-- The `for (const route of resource.routes)` loop. -/
def processRoutes (σ : Store) : List Nat → Except String Store
  | [] => .ok σ
  | rid :: rest => do processRoutes (← processRoute σ rid) rest

/-- The deprecated `expressResource(resourceDefinition)`: shallow-copy the
definition (sharing the `routes` array id), replace the copy's resource-level
middleware by the mapped array, then walk the shared routes, wrapping route-
and method-level middleware in place. -/
def expressResource (σ : Store) (r : ResourceVal) : Except String (ResourceVal × Store) := do
  let (σ, mw') := mapMwOpt σ r.middleware
  let resource := { r with middleware := mw' }
  let σ ← processRoutes σ (σ.routeArr r.routes)
  .ok (resource, σ)

/-! ## Helper lemmas -/

@[simp]
lemma sendStatusJson_statusCode (resp : Resp) (s : Nat) (v : Option Json) :
    (resp.sendStatusJson s v).statusCode = s := rfl

@[simp]
lemma sendStatusJson_body (resp : Resp) (s : Nat) (v : Option Json) :
    (resp.sendStatusJson s v).body = some (.json v) := rfl

@[simp]
lemma sendStatusJson_events (resp : Resp) (s : Nat) (v : Option Json) :
    (resp.sendStatusJson s v).events = resp.events ++ [.write (.json v)] := rfl

@[simp]
lemma logEv_headersSent (resp : Resp) (e : Event) :
    (resp.logEv e).headersSent = resp.headersSent := rfl

@[simp]
lemma logEv_events (resp : Resp) (e : Event) :
    (resp.logEv e).events = resp.events ++ [e] := rfl

@[simp]
lemma logEv_body (resp : Resp) (e : Event) : (resp.logEv e).body = resp.body := rfl

@[simp]
lemma logEv_statusCode (resp : Resp) (e : Event) : (resp.logEv e).statusCode = resp.statusCode := rfl

@[simp]
lemma logEv_headers (resp : Resp) (e : Event) : (resp.logEv e).headers = resp.headers := rfl

@[simp]
lemma mergeLocals_headersSent (b : ResultBase) (resp : Resp) :
    (mergeLocals b resp).headersSent = resp.headersSent := by
  cases h : b.locals <;> simp [mergeLocals, h]

@[simp]
lemma mergeLocals_events (b : ResultBase) (resp : Resp) :
    (mergeLocals b resp).events = resp.events := by
  cases h : b.locals <;> simp [mergeLocals, h]

@[simp]
lemma nextEv_headersSent (resp : Resp) (e : Option ErrPayload) :
    (resp.nextEv e).headersSent = resp.headersSent := rfl

/-- `buildDataHandler` on a handler that returns `status 200` with a truthy
value: the success path writes headers, cookies and the JSON body. -/
lemma buildDataHandler_200_truthy (handler : DataHandler) (req : Req) (resp : Resp)
    (r : DataResult) (hh : handler (buildRouteContext req resp) = .ok r)
    (hst : r.status = 200) (hv : optJsonTruthy r.value = true) :
    buildDataHandler handler req resp =
      ((setCookies req (setHeaders req (mergeLocals r.toResultBase resp) r.headers) r.cookies).sendStatusJson
        200 r.value, none) := by
  simp only [buildDataHandler, hh]
  rw [if_pos ⟨hst, by rw [hv]⟩, hst]

/-- `buildDataHandler` on a handler that returns `status 200` with an absent
or falsy value: the dispatcher constructs the contract-violation error and
calls `next` with it. -/
lemma buildDataHandler_200_falsy (handler : DataHandler) (req : Req) (resp : Resp)
    (r : DataResult) (hh : handler (buildRouteContext req resp) = .ok r)
    (hst : r.status = 200) (hv : optJsonTruthy r.value = false) :
    buildDataHandler handler req resp =
      ((mergeLocals r.toResultBase resp).nextEv
          (some (.jsError "The value MUST be set for data results when the status is 200.")),
        some (.jsError "The value MUST be set for data results when the status is 200.")) := by
  simp only [buildDataHandler, hh, hst, hv, redirect]
  norm_num

/-- `dataErrorHandler` on an `Error` instance with the response not yet
sent: generic 500. -/
lemma dataErrorHandler_jsError (msg : String) (req : Req) (resp : Resp)
    (hs : resp.headersSent = false) :
    dataErrorHandler (.jsError msg) req resp =
      (resp.logEv .logUnexpectedError).sendStatusJson 500 (some (.str "Unknown error.")) := by
  simp [dataErrorHandler, hs, ErrPayload.truthy]

/-- Unfolding `runDataRoute` when the dispatcher completed the response. -/
lemma runDataRoute_eq_none {handler : DataHandler} {req : Req} {resp resp' : Resp}
    (h : buildDataHandler handler req resp = (resp', none)) :
    runDataRoute handler req resp = resp' := by
  unfold runDataRoute
  rw [h]

/-- Unfolding `runDataRoute` when the dispatcher called `next` with a truthy
error: express dispatches to the route's `dataErrorHandler`. -/
lemma runDataRoute_eq_some {handler : DataHandler} {req : Req} {resp resp' : Resp}
    {e : ErrPayload} (h : buildDataHandler handler req resp = (resp', some e))
    (ht : e.truthy = true) :
    runDataRoute handler req resp = dataErrorHandler e req resp' := by
  unfold runDataRoute
  rw [h]
  simp [ht]

/-! ## Claim C1 -/

/-- C1, counterexample.  The claim states that a status-200 `DataResult`
whose `value` is present is answered with 200 and the JSON value.  The
dispatcher however tests `result.value` for JavaScript truthiness, so the
present-but-falsy value `0` takes the contract-violation path and the
request is answered 500, not 200. -/
theorem C1_counterexample :
    (runDataRoute (fun _ => .ok { status := 200, value := some (.num 0) }) {} {}).statusCode = 500 ∧
    ({ status := 200, value := some (.num 0) : DataResult }).value.isSome = true ∧
    (500 : Nat) ≠ 200 := by
  refine ⟨rfl, rfl, by decide⟩

/-- C1, amended: for a data-route handler returning a status-200
`DataResult`, if the value is present AND truthy the dispatcher applies
headers and cookies (after merging locals) and responds 200 with the JSON
value; if the value is omitted or falsy the request is answered 500 with the
generic body, never 200. -/
theorem C1_data200_amended (handler : DataHandler) (req : Req) (resp : Resp) (r : DataResult)
    (hsent : resp.headersSent = false)
    (hh : handler (buildRouteContext req resp) = .ok r)
    (hst : r.status = 200) :
    (∀ v, r.value = some v → v.truthy = true →
      runDataRoute handler req resp =
        (setCookies req (setHeaders req (mergeLocals r.toResultBase resp) r.headers) r.cookies).sendStatusJson
          200 r.value ∧
      (runDataRoute handler req resp).statusCode = 200) ∧
    (optJsonTruthy r.value = false →
      (runDataRoute handler req resp).statusCode = 500 ∧
      (runDataRoute handler req resp).body = some (.json (some (.str "Unknown error.")))) := by
  constructor
  · intro v hv htr
    have hvt : optJsonTruthy r.value = true := by rw [hv]; exact htr
    have hb := buildDataHandler_200_truthy handler req resp r hh hst hvt
    rw [runDataRoute_eq_none hb]
    exact ⟨rfl, rfl⟩
  · intro hvf
    have hb := buildDataHandler_200_falsy handler req resp r hh hst hvf
    rw [runDataRoute_eq_some hb rfl]
    rw [dataErrorHandler_jsError _ _ _ (by simp [hsent])]
    exact ⟨rfl, rfl⟩

/-- C1, witness for the amended theorem at a concrete input. -/
theorem C1_data200_amended_witness :
    (runDataRoute (fun _ => .ok { status := 200, value := some (.num 7) }) {} {}).statusCode = 200 ∧
    (runDataRoute (fun _ => .ok { status := 200 }) {} {}).statusCode = 500 := by
  constructor
  · exact ((C1_data200_amended (fun _ => .ok { status := 200, value := some (.num 7) }) {} {}
      { status := 200, value := some (.num 7) } rfl rfl rfl).1 (.num 7) rfl rfl).2
  · exact ((C1_data200_amended (fun _ => .ok { status := 200 }) {} {}
      { status := 200 } rfl rfl rfl).2 rfl).1

/-! ## Claim C2 -/

/-- Case analysis of the status/value validation in `dataErrorHandler`. -/
lemma dataErrorValidate_cases (base : ResultBase) (value : Option Json) (req : Req) (resp : Resp) :
    (¬ (base.status = 400 ∨ base.status = 401 ∨ base.status = 404) →
      (dataErrorValidate base value req resp).statusCode = 500 ∧
      (dataErrorValidate base value req resp).body = some (.json (some (.str "Unknown error.")))) ∧
    ((base.status = 401 ∨ base.status = 404) → optJsonTruthy value = true →
      (dataErrorValidate base value req resp).statusCode = 500 ∧
      (dataErrorValidate base value req resp).body = some (.json (some (.str "unknown error")))) ∧
    (base.status = 400 → optJsonTruthy value = false →
      (dataErrorValidate base value req resp).statusCode = 500 ∧
      (dataErrorValidate base value req resp).body = some (.json (some (.str "unknown error")))) ∧
    (((base.status = 400 ∧ optJsonTruthy value = true) ∨
      ((base.status = 401 ∨ base.status = 404) ∧ optJsonTruthy value = false)) →
      dataErrorValidate base value req resp =
        (setCookies req (setHeaders req resp base.headers) base.cookies).sendStatusJson base.status value) := by
  refine ⟨?_, ?_, ?_, ?_⟩
  · intro h
    have h4 : base.status ≠ 400 ∧ base.status ≠ 401 ∧ base.status ≠ 404 := by tauto
    rw [dataErrorValidate, if_pos h4]
    exact ⟨rfl, rfl⟩
  · intro h hv
    have h4 : ¬ (base.status ≠ 400 ∧ base.status ≠ 401 ∧ base.status ≠ 404) := by tauto
    rw [dataErrorValidate, if_neg h4, if_pos ⟨h, by rw [hv]⟩]
    exact ⟨rfl, rfl⟩
  · intro h hv
    have h4 : ¬ (base.status ≠ 400 ∧ base.status ≠ 401 ∧ base.status ≠ 404) := by simp [h]
    have h5 : ¬ ((base.status = 401 ∨ base.status = 404) ∧ optJsonTruthy value = true) := by
      rintro ⟨h5, -⟩
      rcases h5 with h5 | h5 <;> omega
    rw [dataErrorValidate, if_neg h4, if_neg h5, if_pos ⟨h, by simp [hv]⟩]
    exact ⟨rfl, rfl⟩
  · intro h
    rcases h with ⟨h, hv⟩ | ⟨h, hv⟩
    · have h4 : ¬ (base.status ≠ 400 ∧ base.status ≠ 401 ∧ base.status ≠ 404) := by simp [h]
      have h5 : ¬ ((base.status = 401 ∨ base.status = 404) ∧ optJsonTruthy value = true) := by
        rintro ⟨h5, -⟩
        rcases h5 with h5 | h5 <;> omega
      have h6 : ¬ (base.status = 400 ∧ ¬ optJsonTruthy value = true) := by simp [hv]
      rw [dataErrorValidate, if_neg h4, if_neg h5, if_neg h6]
    · have h4 : ¬ (base.status ≠ 400 ∧ base.status ≠ 401 ∧ base.status ≠ 404) := by tauto
      have h5 : ¬ ((base.status = 401 ∨ base.status = 404) ∧ optJsonTruthy value = true) := by
        simp [hv]
      have h6 : ¬ (base.status = 400 ∧ ¬ optJsonTruthy value = true) := by
        rintro ⟨h6, -⟩
        rcases h with h | h <;> omega
      rw [dataErrorValidate, if_neg h4, if_neg h5, if_neg h6]

/-- `dataErrorHandler` dispatches a `DataResult` or `MiddlewareResult`
payload to the shared validation when the response is not yet sent. -/
lemma dataErrorHandler_result (err : ErrPayload) (base : ResultBase) (value : Option Json)
    (req : Req) (resp : Resp) (hsent : resp.headersSent = false)
    (herr : err = .dataResult { toResultBase := base, value := value } ∨
      ∃ cf ef, err = .middlewareResult
        { toResultBase := base, continueFlag := cf, endFlag := ef, value := value }) :
    dataErrorHandler err req resp = dataErrorValidate base value req resp := by
  rcases herr with h | ⟨cf, ef, h⟩ <;> subst h <;>
    simp [dataErrorHandler, hsent, ErrPayload.truthy]

/-- C2, counterexample.  The claim accepts a status-400 payload with a
present value as a valid combination to be forwarded verbatim.  The handler
however tests `result.value` for truthiness, so a status-400 `DataResult`
with the present-but-falsy value `0` is answered 500 generic instead of
400. -/
theorem C2_counterexample :
    (dataErrorHandler (.dataResult { status := 400, value := some (.num 0) }) {} {}).statusCode = 500 ∧
    ({ status := 400, value := some (.num 0) : DataResult }).value.isSome = true ∧
    (500 : Nat) ≠ 400 := by
  refine ⟨rfl, rfl, by decide⟩

/-- C2, amended: for a `DataResult` or `MiddlewareResult` payload reaching
`dataErrorHandler` on an unsent response: a status other than 400/401/404
gives 500 generic; 401/404 with a truthy value gives 500 generic; 400 with
an absent-or-falsy value gives 500 generic; otherwise (400 with truthy
value, or 401/404 with absent-or-falsy value) headers and cookies are
applied and the declared status is sent with the value as JSON. -/
theorem C2_dataError_amended (req : Req) (resp : Resp) (base : ResultBase) (value : Option Json)
    (err : ErrPayload) (hsent : resp.headersSent = false)
    (herr : err = .dataResult { toResultBase := base, value := value } ∨
      ∃ cf ef, err = .middlewareResult
        { toResultBase := base, continueFlag := cf, endFlag := ef, value := value }) :
    (¬ (base.status = 400 ∨ base.status = 401 ∨ base.status = 404) →
      (dataErrorHandler err req resp).statusCode = 500 ∧
      (dataErrorHandler err req resp).body = some (.json (some (.str "Unknown error.")))) ∧
    ((base.status = 401 ∨ base.status = 404) → optJsonTruthy value = true →
      (dataErrorHandler err req resp).statusCode = 500 ∧
      (dataErrorHandler err req resp).body = some (.json (some (.str "unknown error")))) ∧
    (base.status = 400 → optJsonTruthy value = false →
      (dataErrorHandler err req resp).statusCode = 500 ∧
      (dataErrorHandler err req resp).body = some (.json (some (.str "unknown error")))) ∧
    (((base.status = 400 ∧ optJsonTruthy value = true) ∨
      ((base.status = 401 ∨ base.status = 404) ∧ optJsonTruthy value = false)) →
      dataErrorHandler err req resp =
        (setCookies req (setHeaders req resp base.headers) base.cookies).sendStatusJson base.status value) := by
  rw [dataErrorHandler_result err base value req resp hsent herr]
  exact dataErrorValidate_cases base value req resp

/-- C2, witness for the amended theorem at concrete inputs: a valid 400
payload is forwarded at status 400, and a 418 payload is answered 500. -/
theorem C2_dataError_amended_witness :
    (dataErrorHandler (.dataResult { status := 400, value := some (.num 1) }) {} {}).statusCode = 400 ∧
    (dataErrorHandler (.dataResult { status := 418 }) {} {}).statusCode = 500 := by
  constructor
  · have h := (C2_dataError_amended {} {} { status := 400 } (some (.num 1))
      (.dataResult { status := 400, value := some (.num 1) }) rfl (.inl rfl)).2.2.2
        (.inl ⟨rfl, rfl⟩)
    rw [h]
    rfl
  · exact ((C2_dataError_amended {} {} { status := 418 } none
      (.dataResult { status := 418 }) rfl (.inl rfl)).1 (by decide)).1

/-! ## Claim C3 -/

/-- C3: the source of `middlewareHandler` reads

```
if (!result.continue && !result.end) {
  next(result);
}
setHeaders(req, resp, result.headers);
setCookies(req, resp, result.cookies);
```

with no `return` after `next(result)`.  Evaluating the embedded handler on a
`MiddlewareResult` with neither `continue` nor `end` set and a header map
shows the wrapper forwarding the result as an error and THEN still writing
the header onto the response, contradicting the claim (and the spec's
stated intent) that after forwarding no further response writing occurs. -/
theorem C3_middleware_forward_still_writes :
    (buildMiddlewareHandler
        (fun _ => .ok { status := 200, headers := some [("x", "y")] })
        dataEndHandler {} {}).events =
      [.nextCalled (some (.middlewareResult { status := 200, headers := some [("x", "y")] })),
       .headerSet "x" "y"] ∧
    (buildMiddlewareHandler
        (fun _ => .ok { status := 200, headers := some [("x", "y")] })
        dataEndHandler {} {}).headers = [("x", "y")] := by
  exact ⟨rfl, rfl⟩

/-! ## Claim C4 -/

/-- C4, counterexample.  The claim states that every code path that writes a
response checks the already-sent flag before writing.  `dataEndHandler` (the
middleware end writer for data routes) performs its JSON write without any
check: on a response whose already-sent flag is set it still records a write
attempt. -/
theorem C4_counterexample :
    (dataEndHandler { status := 200 } { headersSent := true }).events =
      [Event.write (Body.json none)] ∧
    ({ headersSent := true : Resp }).headersSent = true := by
  exact ⟨rfl, rfl⟩

/-- C4, amended: only the two error handlers check the already-sent flag,
and there it is the first executed action (on a sent response they log and
change nothing else); the success dispatcher and the middleware end writers
write without consulting the flag. -/
theorem C4_write_guard_amended :
    (∀ (err : ErrPayload) (req : Req) (resp : Resp), resp.headersSent = true →
      dataErrorHandler err req resp = resp.logEv .logAlreadySent) ∧
    (∀ (render : Renderer) (err : ErrPayload) (req : Req) (resp : Resp),
      resp.headersSent = true →
      buildViewErrorHandler render err req resp = resp.logEv .logAlreadySent) ∧
    (∀ (r : MiddlewareResult) (resp : Resp),
      (dataEndHandler r resp).events = resp.events ++ [.write (.json r.value)]) ∧
    (∀ (r : MiddlewareResult) (resp : Resp),
      (viewEndHandler r resp).events =
        resp.events ++ [.headerSet "Content-Type" "text/html", .write (.raw r.value)]) ∧
    (∀ (handler : DataHandler) (req : Req) (resp : Resp) (r : DataResult),
      handler (buildRouteContext req resp) = .ok r → r.status = 200 →
      optJsonTruthy r.value = true →
      ((buildDataHandler handler req resp).1.events).getLast? = some (.write (.json r.value))) := by
  refine ⟨?_, ?_, ?_, ?_, ?_⟩
  · intro err req resp hsent
    simp [dataErrorHandler, hsent]
  · intro render err req resp hsent
    simp [buildViewErrorHandler, hsent]
  · intro r resp
    rfl
  · intro r resp
    simp [viewEndHandler, Resp.contentType, Resp.setH, Resp.sendRaw]
  · intro handler req resp r hh hst hv
    rw [buildDataHandler_200_truthy handler req resp r hh hst hv]
    simp

/-- C4, witness for the amended theorem at concrete inputs. -/
theorem C4_write_guard_amended_witness :
    dataErrorHandler .empty {} { headersSent := true } =
      ({ headersSent := true : Resp }).logEv .logAlreadySent ∧
    (dataEndHandler { status := 204 } { headersSent := true }).events =
      [Event.write (Body.json none)] := by
  constructor
  · exact C4_write_guard_amended.1 .empty {} { headersSent := true } rfl
  · rw [C4_write_guard_amended.2.2.1 { status := 204 } { headersSent := true }]
    rfl

/-! ## Claim C5 -/

/-- C5, confirmed: when the response has already been sent, both error
handlers log the double-write diagnostic as their only action: the response
fields are untouched, no write event is recorded, and (the handlers being
total functions whose only throwing callee, the view renderer, is reached
only past this guard) no exception escapes. -/
theorem C5_errorHandlers_sent_noop (err : ErrPayload) (req : Req) (resp : Resp)
    (render : Renderer) (hsent : resp.headersSent = true) :
    dataErrorHandler err req resp = resp.logEv .logAlreadySent ∧
    buildViewErrorHandler render err req resp = resp.logEv .logAlreadySent ∧
    (dataErrorHandler err req resp).body = resp.body ∧
    (dataErrorHandler err req resp).statusCode = resp.statusCode ∧
    (dataErrorHandler err req resp).headers = resp.headers ∧
    (dataErrorHandler err req resp).events = resp.events ++ [.logAlreadySent] ∧
    (buildViewErrorHandler render err req resp).events = resp.events ++ [.logAlreadySent] := by
  have hd : dataErrorHandler err req resp = resp.logEv .logAlreadySent := by
    simp [dataErrorHandler, hsent]
  have hv : buildViewErrorHandler render err req resp = resp.logEv .logAlreadySent := by
    simp [buildViewErrorHandler, hsent]
  rw [hd, hv]
  exact ⟨rfl, rfl, rfl, rfl, rfl, rfl, rfl⟩

/-- C5, witness at a concrete sent response. -/
theorem C5_errorHandlers_sent_noop_witness :
    dataErrorHandler (.jsError "boom") {} { headersSent := true } =
      ({ headersSent := true : Resp }).logEv .logAlreadySent ∧
    buildViewErrorHandler (fun _ _ => .ok "page") (.jsError "boom") {} { headersSent := true } =
      ({ headersSent := true : Resp }).logEv .logAlreadySent := by
  have h := C5_errorHandlers_sent_noop (.jsError "boom") {} { headersSent := true }
    (fun _ _ => .ok "page") rfl
  exact ⟨h.1, h.2.1⟩

/-! ## Claim C6 -/

/-- Normal form of the options object built by `setCookie`: each attribute
independently carries the cookie's value when truthy and is absent
otherwise. -/
lemma setCookieOptions_eq (cookie : Cookie) :
    setCookieOptions cookie =
      { domain := if optStrTruthy cookie.domain then cookie.domain else none,
        expires := if cookie.expires.isSome then cookie.expires else none,
        httpOnly := if optBoolTruthy cookie.httpOnly then cookie.httpOnly else none,
        maxAge := if optIntTruthy cookie.maxAge then cookie.maxAge else none,
        path := if optStrTruthy cookie.path then cookie.path else none,
        sameSite := if optSameSiteTruthy cookie.sameSite then cookie.sameSite else none,
        secure := if optBoolTruthy cookie.secure then cookie.secure else none } := by
  unfold setCookieOptions
  split_ifs <;> rfl

/-- C6, counterexample.  The claim states that exactly the attributes
actually present on the cookie are forwarded, with presence distinct from
false/zero.  `setCookie` however adds an attribute to the options object
only when its value is truthy: `httpOnly: false` and `maxAge: 0` are present
on the cookie but omitted from the options. -/
theorem C6_counterexample :
    (setCookieOptions { name := "a", value := "b", httpOnly := some false, maxAge := some 0 }).httpOnly
        = none ∧
    (setCookieOptions { name := "a", value := "b", httpOnly := some false, maxAge := some 0 }).maxAge
        = none ∧
    ({ name := "a", value := "b", httpOnly := some false, maxAge := some 0 : Cookie }).httpOnly
        = some false ∧
    ({ name := "a", value := "b", httpOnly := some false, maxAge := some 0 : Cookie }).maxAge
        = some 0 := by
  exact ⟨rfl, rfl, rfl, rfl⟩

/-- C6, amended: `setCookie` issues exactly one underlying cookie-setter call
with an options object holding exactly the attributes whose cookie values
are truthy (strings when non-empty, numbers when non-zero, booleans when
true, `sameSite` unless it is `false`, and `expires` whenever present,
since a `Date` object is always truthy); each forwarded attribute carries
the cookie's own value, and every other attribute is absent from the
options object. -/
theorem C6_setCookie_amended (resp : Resp) (cookie : Cookie) :
    (setCookie resp cookie).events =
      resp.events ++ [.cookieSet ⟨cookie.name, cookie.value, setCookieOptions cookie⟩] ∧
    ((setCookieOptions cookie).domain.isSome ↔ ∃ s, cookie.domain = some s ∧ s ≠ "") ∧
    ((setCookieOptions cookie).domain.isSome → (setCookieOptions cookie).domain = cookie.domain) ∧
    (setCookieOptions cookie).expires = cookie.expires ∧
    ((setCookieOptions cookie).httpOnly.isSome ↔ cookie.httpOnly = some true) ∧
    ((setCookieOptions cookie).httpOnly.isSome → (setCookieOptions cookie).httpOnly = cookie.httpOnly) ∧
    ((setCookieOptions cookie).maxAge.isSome ↔ ∃ n, cookie.maxAge = some n ∧ n ≠ 0) ∧
    ((setCookieOptions cookie).maxAge.isSome → (setCookieOptions cookie).maxAge = cookie.maxAge) ∧
    ((setCookieOptions cookie).path.isSome ↔ ∃ s, cookie.path = some s ∧ s ≠ "") ∧
    ((setCookieOptions cookie).path.isSome → (setCookieOptions cookie).path = cookie.path) ∧
    ((setCookieOptions cookie).sameSite.isSome ↔ ∃ v, cookie.sameSite = some v ∧ v.truthy = true) ∧
    ((setCookieOptions cookie).sameSite.isSome → (setCookieOptions cookie).sameSite = cookie.sameSite) ∧
    ((setCookieOptions cookie).secure.isSome ↔ cookie.secure = some true) ∧
    ((setCookieOptions cookie).secure.isSome → (setCookieOptions cookie).secure = cookie.secure) := by
  refine ⟨rfl, ?_, ?_, ?_, ?_, ?_, ?_, ?_, ?_, ?_, ?_, ?_, ?_, ?_⟩ <;>
    rw [setCookieOptions_eq]
  · cases h : cookie.domain with
    | none => simp [optStrTruthy]
    | some s => by_cases hs : s = "" <;> simp [optStrTruthy, hs]
  · cases h : cookie.domain with
    | none => simp [optStrTruthy]
    | some s => by_cases hs : s = "" <;> simp [optStrTruthy, hs]
  · cases h : cookie.expires <;> simp
  · cases h : cookie.httpOnly with
    | none => simp [optBoolTruthy]
    | some b => cases b <;> simp [optBoolTruthy]
  · cases h : cookie.httpOnly with
    | none => simp [optBoolTruthy]
    | some b => cases b <;> simp [optBoolTruthy]
  · cases h : cookie.maxAge with
    | none => simp [optIntTruthy]
    | some n => by_cases hn : n = 0 <;> simp [optIntTruthy, hn]
  · cases h : cookie.maxAge with
    | none => simp [optIntTruthy]
    | some n => by_cases hn : n = 0 <;> simp [optIntTruthy, hn]
  · cases h : cookie.path with
    | none => simp [optStrTruthy]
    | some s => by_cases hs : s = "" <;> simp [optStrTruthy, hs]
  · cases h : cookie.path with
    | none => simp [optStrTruthy]
    | some s => by_cases hs : s = "" <;> simp [optStrTruthy, hs]
  · cases h : cookie.sameSite with
    | none => simp [optSameSiteTruthy]
    | some v => cases hv : v.truthy <;> simp [optSameSiteTruthy, hv]
  · cases h : cookie.sameSite with
    | none => simp [optSameSiteTruthy]
    | some v => cases hv : v.truthy <;> simp [optSameSiteTruthy, hv]
  · cases h : cookie.secure with
    | none => simp [optBoolTruthy]
    | some b => cases b <;> simp [optBoolTruthy]
  · cases h : cookie.secure with
    | none => simp [optBoolTruthy]
    | some b => cases b <;> simp [optBoolTruthy]

/-! ## Claim C7 -/

@[simp]
lemma getVal_setVal_self {α : Type} (l : List (String × α)) (k : String) (v : α) :
    getVal (setVal l k v) k = some v := by
  induction l with
  | nil => simp [getVal, setVal]
  | cons p rest ih =>
    by_cases h : p.1 = k
    · simp [setVal, h, getVal]
    · simp [setVal, h, getVal, ih]

lemma getVal_setVal_ne {α : Type} (l : List (String × α)) (k k' : String) (v : α)
    (h : k' ≠ k) : getVal (setVal l k v) k' = getVal l k' := by
  induction l with
  | nil =>
    simp only [setVal, getVal]
    rw [if_neg (fun hk => h hk.symm)]
  | cons p rest ih =>
    simp only [setVal]
    by_cases hp : p.1 = k
    · rw [if_pos hp]
      simp only [getVal]
      rw [if_neg (fun hk => h hk.symm), if_neg (fun hk => h (hp.symm.trans hk).symm)]
    · rw [if_neg hp]
      simp only [getVal]
      by_cases hp' : p.1 = k'
      · rw [if_pos hp', if_pos hp']
      · rw [if_neg hp', if_neg hp', ih]

@[simp]
lemma replaceLog_headers (resp : Resp) (n v : String) :
    (replaceLog resp n v).headers = resp.headers := by
  unfold replaceLog
  cases resp.getHeader n with
  | none => rfl
  | some old =>
    by_cases h : old = "" <;> simp [h]

@[simp]
lemma replaceLog_getHeader (resp : Resp) (n v m : String) :
    (replaceLog resp n v).getHeader m = resp.getHeader m := by
  unfold Resp.getHeader
  rw [replaceLog_headers]

@[simp]
lemma setH_headers (resp : Resp) (n v : String) :
    (resp.setH n v).headers = setVal resp.headers (lowerStr n) v := rfl

@[simp]
lemma setH_events (resp : Resp) (n v : String) :
    (resp.setH n v).events = resp.events ++ [.headerSet n v] := rfl

/-- `replaceLog` either keeps the events or appends the replace diagnostic. -/
lemma replaceLog_events_cases (resp : Resp) (n v : String) :
    (replaceLog resp n v).events = resp.events ∨
    ∃ old, resp.getHeader n = some old ∧ old ≠ "" ∧
      (replaceLog resp n v).events = resp.events ++ [.logReplaceHeader n old v] := by
  unfold replaceLog
  cases h : resp.getHeader n with
  | none => exact .inl rfl
  | some old =>
    by_cases ho : old = ""
    · simp [ho]
    · exact .inr ⟨old, rfl, ho, by simp [ho]⟩

/-- `replaceLog` when the stored value is truthy. -/
lemma replaceLog_of_truthy (resp : Resp) (n v old : String)
    (hold : resp.getHeader n = some old) (hone : old ≠ "") :
    replaceLog resp n v = resp.logEv (.logReplaceHeader n old v) := by
  unfold replaceLog
  rw [hold]
  simp [hone]

/-- The header loop only appends events. -/
lemma setHeadersLoop_events_mono (hs : List (String × String)) :
    ∀ resp : Resp, ∃ t, (setHeadersLoop resp hs).events = resp.events ++ t := by
  induction hs with
  | nil => exact fun resp => ⟨[], by simp [setHeadersLoop]⟩
  | cons p rest ih =>
    intro resp
    obtain ⟨n, v⟩ := p
    by_cases hct : lowerStr n = "content-type"
    · obtain ⟨t, ht⟩ := ih (resp.logEv .logSkipContentType)
      exact ⟨.logSkipContentType :: t, by simp [setHeadersLoop, hct, ht]⟩
    · obtain ⟨t, ht⟩ := ih ((replaceLog resp n v).setH n v)
      rcases replaceLog_events_cases resp n v with hr | ⟨old, -, -, hr⟩
      · exact ⟨.headerSet n v :: t, by simp [setHeadersLoop, hct, ht, hr]⟩
      · exact ⟨.logReplaceHeader n old v :: .headerSet n v :: t, by
          simp [setHeadersLoop, hct, ht, hr]⟩

lemma setHeadersLoop_events_mem (hs : List (String × String)) (resp : Resp) (e : Event)
    (h : e ∈ resp.events) : e ∈ (setHeadersLoop resp hs).events := by
  obtain ⟨t, ht⟩ := setHeadersLoop_events_mono hs resp
  rw [ht]
  exact List.mem_append_left _ h

/-- The loop never touches the stored content-type header. -/
lemma setHeadersLoop_ct (hs : List (String × String)) :
    ∀ resp : Resp,
      getVal (setHeadersLoop resp hs).headers "content-type" =
      getVal resp.headers "content-type" := by
  induction hs with
  | nil => intro resp; rfl
  | cons p rest ih =>
    intro resp
    obtain ⟨n, v⟩ := p
    by_cases hct : lowerStr n = "content-type"
    · simp [setHeadersLoop, hct, ih]
    · simp only [setHeadersLoop, if_neg hct]
      rw [ih]
      simp only [setH_headers, replaceLog_headers]
      exact getVal_setVal_ne _ _ _ _ (fun hh => hct hh.symm)

/-- Entries whose (lowercased) name differs from `k` leave the `k` slot
unchanged. -/
lemma setHeadersLoop_frame (hs : List (String × String)) (k : String) :
    ∀ resp : Resp, (∀ p ∈ hs, lowerStr p.1 ≠ k) →
      getVal (setHeadersLoop resp hs).headers k = getVal resp.headers k := by
  induction hs with
  | nil => intro resp _; rfl
  | cons p rest ih =>
    intro resp hall
    obtain ⟨n, v⟩ := p
    have hn : lowerStr n ≠ k := hall (n, v) (List.mem_cons_self _ _)
    by_cases hct : lowerStr n = "content-type"
    · simp only [setHeadersLoop, if_pos hct]
      rw [ih _ (fun q hq => hall q (List.mem_cons_of_mem _ hq))]
      rfl
    · simp only [setHeadersLoop, if_neg hct]
      rw [ih _ (fun q hq => hall q (List.mem_cons_of_mem _ hq))]
      simp only [setH_headers, replaceLog_headers]
      exact getVal_setVal_ne _ _ _ _ (fun hh => hn hh.symm)

/-- A content-type entry always logs the skip diagnostic. -/
lemma setHeadersLoop_skip_mem (hs : List (String × String)) :
    ∀ resp : Resp, ∀ n v, (n, v) ∈ hs → lowerStr n = "content-type" →
      Event.logSkipContentType ∈ (setHeadersLoop resp hs).events := by
  induction hs with
  | nil => intro _ _ _ h _; cases h
  | cons p rest ih =>
    intro resp n v hmem hct
    obtain ⟨m, w⟩ := p
    rcases List.mem_cons.mp hmem with heq | hmem'
    · have hm : n = m := congrArg Prod.fst heq
      have hmc : lowerStr m = "content-type" := by rw [← hm]; exact hct
      simp only [setHeadersLoop, if_pos hmc]
      exact setHeadersLoop_events_mem _ _ _ (by simp)
    · by_cases hmc : lowerStr m = "content-type"
      · simp only [setHeadersLoop, if_pos hmc]
        exact ih _ n v hmem' hct
      · simp only [setHeadersLoop, if_neg hmc]
        exact ih _ n v hmem' hct

/-- A non-content-type entry whose lowercased name is unique in the map ends
up stored with its value. -/
lemma setHeadersLoop_set (hs : List (String × String)) :
    ∀ resp : Resp, ∀ n v, (n, v) ∈ hs → lowerStr n ≠ "content-type" →
      (hs.filter (fun p => lowerStr p.1 = lowerStr n)).length = 1 →
      getVal (setHeadersLoop resp hs).headers (lowerStr n) = some v := by
  induction hs with
  | nil => intro _ _ _ h _ _; cases h
  | cons p rest ih =>
    intro resp n v hmem hct hcount
    obtain ⟨m, w⟩ := p
    by_cases hlm : lowerStr m = lowerStr n
    · have hnone : ∀ q ∈ rest, lowerStr q.1 ≠ lowerStr n := by
        simp [List.filter_cons, hlm] at hcount
        exact fun q hq => hcount q.1 q.2 (by simpa using hq)
      have heq : (m, w) = (n, v) := by
        rcases List.mem_cons.mp hmem with h | h
        · exact h.symm
        · exact absurd hlm (by simpa using hnone (n, v) h)
      have hm : m = n := congrArg Prod.fst heq
      have hw : w = v := congrArg Prod.snd heq
      rw [hm, hw]
      simp only [setHeadersLoop, if_neg hct]
      rw [setHeadersLoop_frame rest (lowerStr n) _ hnone]
      simp
    · have hne : (n, v) ≠ (m, w) := fun h => hlm (by cases h; rfl)
      have hmem' : (n, v) ∈ rest := by
        rcases List.mem_cons.mp hmem with h | h
        · exact absurd h hne
        · exact h
      have hcount' : (rest.filter (fun p => lowerStr p.1 = lowerStr n)).length = 1 := by
        simpa [List.filter_cons, hlm] using hcount
      by_cases hmc : lowerStr m = "content-type"
      · simp only [setHeadersLoop, if_pos hmc]
        exact ih _ n v hmem' hct hcount'
      · simp only [setHeadersLoop, if_neg hmc]
        exact ih _ n v hmem' hct hcount'

/-- A unique non-content-type entry overwriting a truthy existing value logs
the replacement diagnostic. -/
lemma setHeadersLoop_replace_mem (hs : List (String × String)) :
    ∀ resp : Resp, ∀ n v, (n, v) ∈ hs → lowerStr n ≠ "content-type" →
      (hs.filter (fun p => lowerStr p.1 = lowerStr n)).length = 1 →
      ∀ old, resp.getHeader n = some old → old ≠ "" →
      Event.logReplaceHeader n old v ∈ (setHeadersLoop resp hs).events := by
  induction hs with
  | nil => intro _ _ _ h _ _ _ _ _; cases h
  | cons p rest ih =>
    intro resp n v hmem hct hcount old hold hone
    obtain ⟨m, w⟩ := p
    by_cases hlm : lowerStr m = lowerStr n
    · have hnone : ∀ q ∈ rest, lowerStr q.1 ≠ lowerStr n := by
        simp [List.filter_cons, hlm] at hcount
        exact fun q hq => hcount q.1 q.2 (by simpa using hq)
      have heq : (m, w) = (n, v) := by
        rcases List.mem_cons.mp hmem with h | h
        · exact h.symm
        · exact absurd hlm (by simpa using hnone (n, v) h)
      have hm : m = n := congrArg Prod.fst heq
      have hw : w = v := congrArg Prod.snd heq
      rw [hm, hw]
      simp only [setHeadersLoop, if_neg hct]
      apply setHeadersLoop_events_mem
      rw [replaceLog_of_truthy _ _ _ _ hold hone]
      simp
    · have hne : (n, v) ≠ (m, w) := fun h => hlm (by cases h; rfl)
      have hmem' : (n, v) ∈ rest := by
        rcases List.mem_cons.mp hmem with h | h
        · exact absurd h hne
        · exact h
      have hcount' : (rest.filter (fun p => lowerStr p.1 = lowerStr n)).length = 1 := by
        simpa [List.filter_cons, hlm] using hcount
      by_cases hmc : lowerStr m = "content-type"
      · simp only [setHeadersLoop, if_pos hmc]
        exact ih _ n v hmem' hct hcount' old hold hone
      · simp only [setHeadersLoop, if_neg hmc]
        refine ih _ n v hmem' hct hcount' old ?_ hone
        simp only [Resp.getHeader, setH_headers, replaceLog_headers]
        rw [getVal_setVal_ne _ _ _ _ (fun hh => hlm hh.symm)]
        exact hold

/-- Any header-set event of the loop's output concerns a
non-content-type name (or was already there). -/
lemma setHeadersLoop_headerSet_src (hs : List (String × String)) :
    ∀ resp : Resp, ∀ n v, Event.headerSet n v ∈ (setHeadersLoop resp hs).events →
      Event.headerSet n v ∈ resp.events ∨ lowerStr n ≠ "content-type" := by
  induction hs with
  | nil => intro resp n v h; exact .inl h
  | cons p rest ih =>
    intro resp n v h
    obtain ⟨m, w⟩ := p
    by_cases hmc : lowerStr m = "content-type"
    · simp only [setHeadersLoop, if_pos hmc] at h
      rcases ih _ n v h with h' | h'
      · simp only [logEv_events, List.mem_append, List.mem_singleton] at h'
        rcases h' with h' | h'
        · exact .inl h'
        · cases h'
      · exact .inr h'
    · simp only [setHeadersLoop, if_neg hmc] at h
      rcases ih _ n v h with h' | h'
      · rcases replaceLog_events_cases resp m w with hr | ⟨old, -, -, hr⟩
        · simp only [setH_events, hr, List.mem_append, List.mem_singleton] at h'
          rcases h' with h' | h'
          · exact .inl h'
          · cases h'
            exact .inr hmc
        · simp only [setH_events, hr, List.mem_append, List.mem_singleton] at h'
          rcases h' with (h' | h') | h'
          · exact .inl h'
          · cases h'
          · cases h'
            exact .inr hmc
      · exact .inr h'

/-- C7, counterexample.  The claim promises a diagnostic log whenever the
name already has a value on the response.  The source logs only when the
existing value is truthy: with the existing value `""` the header is
overwritten with no diagnostic. -/
theorem C7_counterexample :
    ({ headers := [("x", "")] : Resp }).getHeader "x" = some "" ∧
    (setHeaders {} { headers := [("x", "")] } (some [("x", "y")])).events =
      [.headerSet "x" "y"] ∧
    getVal (setHeaders {} { headers := [("x", "")] } (some [("x", "y")])).headers "x" =
      some "y" := by
  exact ⟨rfl, rfl, rfl⟩

/-- C7, amended: a `content-type` entry (case-insensitively) is never
forwarded to the response — the stored content-type is untouched, every
produced header-set event concerns another name, and each such entry logs
the skip diagnostic — while every other entry whose lowercased name is
unique in the map is set on the response, overwriting any existing value,
with a diagnostic log when a truthy (non-empty) existing value is present. -/
theorem C7_setHeaders_amended (req : Req) (resp : Resp) (hs : List (String × String)) :
    (getVal (setHeaders req resp (some hs)).headers "content-type" =
      getVal resp.headers "content-type") ∧
    (∀ n v, Event.headerSet n v ∈ (setHeaders req resp (some hs)).events →
      Event.headerSet n v ∈ resp.events ∨ lowerStr n ≠ "content-type") ∧
    (∀ n v, (n, v) ∈ hs → lowerStr n = "content-type" →
      Event.logSkipContentType ∈ (setHeaders req resp (some hs)).events) ∧
    (∀ n v, (n, v) ∈ hs → lowerStr n ≠ "content-type" →
      (hs.filter (fun p => lowerStr p.1 = lowerStr n)).length = 1 →
      getVal (setHeaders req resp (some hs)).headers (lowerStr n) = some v ∧
      (∀ old, resp.getHeader n = some old → old ≠ "" →
        Event.logReplaceHeader n old v ∈ (setHeaders req resp (some hs)).events)) := by
  refine ⟨setHeadersLoop_ct hs resp, ?_, ?_, ?_⟩
  · intro n v h
    exact setHeadersLoop_headerSet_src hs resp n v h
  · intro n v hmem hct
    exact setHeadersLoop_skip_mem hs resp n v hmem hct
  · intro n v hmem hct hcount
    exact ⟨setHeadersLoop_set hs resp n v hmem hct hcount,
      fun old hold hone => setHeadersLoop_replace_mem hs resp n v hmem hct hcount old hold hone⟩

/-- C7, witness applying the amended theorem at a concrete header map. -/
theorem C7_setHeaders_amended_witness :
    getVal (setHeaders {} { headers := [("x", "old")] }
        (some [("Content-Type", "text/xml"), ("x", "y")])).headers "content-type" =
      getVal [("x", "old")] "content-type" ∧
    getVal (setHeaders {} { headers := [("x", "old")] }
        (some [("Content-Type", "text/xml"), ("x", "y")])).headers "x" = some "y" ∧
    Event.logReplaceHeader "x" "old" "y" ∈
      (setHeaders {} { headers := [("x", "old")] }
        (some [("Content-Type", "text/xml"), ("x", "y")])).events ∧
    Event.logSkipContentType ∈
      (setHeaders {} { headers := [("x", "old")] }
        (some [("Content-Type", "text/xml"), ("x", "y")])).events := by
  have h := C7_setHeaders_amended {} { headers := [("x", "old")] }
    [("Content-Type", "text/xml"), ("x", "y")]
  refine ⟨h.1, ?_, ?_, ?_⟩
  · have := (h.2.2.2 "x" "y" (by simp) (by decide) (by decide)).1
    simpa using this
  · exact (h.2.2.2 "x" "y" (by simp) (by decide) (by decide)).2 "old" rfl (by decide)
  · exact h.2.2.1 "Content-Type" "text/xml" (by simp) (by decide)

/-! ## Claim C8 -/

@[simp]
lemma cookieCalls_logKeep (resp : Resp) (n : String) :
    (resp.logEv (.logKeepCookie n)).cookieCalls = resp.cookieCalls := by
  simp [Resp.cookieCalls, Resp.logEv, List.filterMap_append]

@[simp]
lemma cookieCalls_logOverwrite (resp : Resp) (n : String) :
    (resp.logEv (.logOverwriteCookie n)).cookieCalls = resp.cookieCalls := by
  simp [Resp.cookieCalls, Resp.logEv, List.filterMap_append]

@[simp]
lemma setCookie_events (resp : Resp) (c : Cookie) :
    (setCookie resp c).events =
      resp.events ++ [.cookieSet ⟨c.name, c.value, setCookieOptions c⟩] := rfl

@[simp]
lemma setCookie_cookieCalls (resp : Resp) (c : Cookie) :
    (setCookie resp c).cookieCalls =
      resp.cookieCalls ++ [⟨c.name, c.value, setCookieOptions c⟩] := by
  simp [Resp.cookieCalls, setCookie, Resp.cookie, List.filterMap_append]

/-- The conflict-checking loop issues exactly the cookie-setter calls for
the cookies that are not skipped (skipped: the request carries a truthy
value for the name and `overwrite` is not truthy). -/
lemma setCookiesLoop_calls (reqCs : List (String × String)) (cookies : List Cookie) :
    ∀ resp : Resp,
      (setCookiesLoop reqCs resp cookies).cookieCalls =
        resp.cookieCalls ++
          (cookies.filter fun c =>
            !(optStrTruthy (getVal reqCs c.name) && !optBoolTruthy c.overwrite)).map
            (fun c => ⟨c.name, c.value, setCookieOptions c⟩) := by
  induction cookies with
  | nil => intro resp; simp [setCookiesLoop]
  | cons c rest ih =>
    intro resp
    cases hA : optStrTruthy (getVal reqCs c.name) <;> cases hB : optBoolTruthy c.overwrite <;>
      simp [setCookiesLoop, hA, hB, ih, List.filter_cons]

/-- The unchecked fast path issues one call per cookie, in order. -/
lemma foldl_setCookie_calls (cookies : List Cookie) :
    ∀ resp : Resp,
      (cookies.foldl setCookie resp).cookieCalls =
        resp.cookieCalls ++ cookies.map (fun c => ⟨c.name, c.value, setCookieOptions c⟩) := by
  induction cookies with
  | nil => intro resp; simp
  | cons c rest ih =>
    intro resp
    simp [List.foldl_cons, ih]

/-- Step equations for the conflict-checking loop. -/
lemma setCookiesLoop_cons_skip (reqCs : List (String × String)) (resp : Resp)
    (c : Cookie) (rest : List Cookie)
    (hA : optStrTruthy (getVal reqCs c.name) = true)
    (hB : optBoolTruthy c.overwrite = false) :
    setCookiesLoop reqCs resp (c :: rest) =
      setCookiesLoop reqCs (resp.logEv (.logKeepCookie c.name)) rest := by
  simp [setCookiesLoop, hA, hB]

lemma setCookiesLoop_cons_overwrite (reqCs : List (String × String)) (resp : Resp)
    (c : Cookie) (rest : List Cookie)
    (hA : optStrTruthy (getVal reqCs c.name) = true)
    (hB : optBoolTruthy c.overwrite = true) :
    setCookiesLoop reqCs resp (c :: rest) =
      setCookiesLoop reqCs (setCookie (resp.logEv (.logOverwriteCookie c.name)) c) rest := by
  simp [setCookiesLoop, hA, hB]

lemma setCookiesLoop_cons_plain (reqCs : List (String × String)) (resp : Resp)
    (c : Cookie) (rest : List Cookie)
    (hA : optStrTruthy (getVal reqCs c.name) = false) :
    setCookiesLoop reqCs resp (c :: rest) =
      setCookiesLoop reqCs (setCookie resp c) rest := by
  simp [setCookiesLoop, hA]

/-- The cookie loop only appends events. -/
lemma setCookiesLoop_events_mono (reqCs : List (String × String)) (cookies : List Cookie) :
    ∀ resp : Resp, ∃ t, (setCookiesLoop reqCs resp cookies).events = resp.events ++ t := by
  induction cookies with
  | nil => exact fun resp => ⟨[], by simp [setCookiesLoop]⟩
  | cons c rest ih =>
    intro resp
    by_cases hA : optStrTruthy (getVal reqCs c.name) = true
    · by_cases hB : optBoolTruthy c.overwrite = true
      · rw [setCookiesLoop_cons_overwrite reqCs resp c rest hA hB]
        obtain ⟨t, ht⟩ := ih (setCookie (resp.logEv (.logOverwriteCookie c.name)) c)
        refine ⟨Event.logOverwriteCookie c.name ::
          Event.cookieSet ⟨c.name, c.value, setCookieOptions c⟩ :: t, ?_⟩
        rw [ht]
        simp
      · rw [setCookiesLoop_cons_skip reqCs resp c rest hA (by simpa using hB)]
        obtain ⟨t, ht⟩ := ih (resp.logEv (.logKeepCookie c.name))
        refine ⟨Event.logKeepCookie c.name :: t, ?_⟩
        rw [ht]
        simp
    · rw [setCookiesLoop_cons_plain reqCs resp c rest (by simpa using hA)]
      obtain ⟨t, ht⟩ := ih (setCookie resp c)
      refine ⟨Event.cookieSet ⟨c.name, c.value, setCookieOptions c⟩ :: t, ?_⟩
      rw [ht]
      simp

lemma setCookiesLoop_events_mem (reqCs : List (String × String)) (cookies : List Cookie)
    (resp : Resp) (e : Event) (h : e ∈ resp.events) :
    e ∈ (setCookiesLoop reqCs resp cookies).events := by
  obtain ⟨t, ht⟩ := setCookiesLoop_events_mono reqCs cookies resp
  rw [ht]
  exact List.mem_append_left _ h

/-- A skipped cookie logs the keep diagnostic. -/
lemma setCookiesLoop_keep_mem (reqCs : List (String × String)) (cookies : List Cookie) :
    ∀ resp : Resp, ∀ c ∈ cookies,
      optStrTruthy (getVal reqCs c.name) = true → optBoolTruthy c.overwrite = false →
      Event.logKeepCookie c.name ∈ (setCookiesLoop reqCs resp cookies).events := by
  induction cookies with
  | nil => intro _ _ h; cases h
  | cons c' rest ih =>
    intro resp c hc hA hB
    rcases List.mem_cons.mp hc with rfl | hc'
    · rw [setCookiesLoop_cons_skip reqCs resp c rest hA hB]
      exact setCookiesLoop_events_mem _ _ _ _ (by simp)
    · by_cases hA' : optStrTruthy (getVal reqCs c'.name) = true
      · by_cases hB' : optBoolTruthy c'.overwrite = true
        · rw [setCookiesLoop_cons_overwrite reqCs resp c' rest hA' hB']
          exact ih _ c hc' hA hB
        · rw [setCookiesLoop_cons_skip reqCs resp c' rest hA' (by simpa using hB')]
          exact ih _ c hc' hA hB
      · rw [setCookiesLoop_cons_plain reqCs resp c' rest (by simpa using hA')]
        exact ih _ c hc' hA hB

/-- A replaced cookie logs the overwrite diagnostic. -/
lemma setCookiesLoop_overwrite_mem (reqCs : List (String × String)) (cookies : List Cookie) :
    ∀ resp : Resp, ∀ c ∈ cookies,
      optStrTruthy (getVal reqCs c.name) = true → optBoolTruthy c.overwrite = true →
      Event.logOverwriteCookie c.name ∈ (setCookiesLoop reqCs resp cookies).events := by
  induction cookies with
  | nil => intro _ _ h; cases h
  | cons c' rest ih =>
    intro resp c hc hA hB
    rcases List.mem_cons.mp hc with rfl | hc'
    · rw [setCookiesLoop_cons_overwrite reqCs resp c rest hA hB]
      exact setCookiesLoop_events_mem _ _ _ _ (by simp)
    · by_cases hA' : optStrTruthy (getVal reqCs c'.name) = true
      · by_cases hB' : optBoolTruthy c'.overwrite = true
        · rw [setCookiesLoop_cons_overwrite reqCs resp c' rest hA' hB']
          exact ih _ c hc' hA hB
        · rw [setCookiesLoop_cons_skip reqCs resp c' rest hA' (by simpa using hB')]
          exact ih _ c hc' hA hB
      · rw [setCookiesLoop_cons_plain reqCs resp c' rest (by simpa using hA')]
        exact ih _ c hc' hA hB

/-- C8, counterexample.  The claim says a cookie whose name the request
already carries is kept (no setter call) when `overwrite` is absent.  The
conflict check tests the request value for truthiness: a request cookie with
the empty value `""` is carried by the request, yet the new cookie is
applied with no overwrite flag. -/
theorem C8_counterexample :
    getVal [("a", "")] "a" = some "" ∧
    (setCookies { cookies := some [("a", "")] } {}
        (some [{ name := "a", value := "b" }])).cookieCalls =
      [⟨"a", "b", setCookieOptions { name := "a", value := "b" }⟩] := by
  exact ⟨rfl, rfl⟩

/-- C8, amended: when the request carries a cookie map, a result cookie is
skipped (with a keep diagnostic, and no setter call) exactly when the
request's value for its name is truthy (non-empty) and `overwrite` is not
truthy; a truthy request value with `overwrite` set logs the replacement and
the cookie is applied; and when the request carries no cookie map at all,
every cookie is applied unconditionally, in order. -/
theorem C8_setCookies_amended (req : Req) (resp : Resp) (cookies : List Cookie) :
    (∀ reqCs, req.cookies = some reqCs →
      (setCookies req resp (some cookies)).cookieCalls =
        resp.cookieCalls ++
          (cookies.filter fun c =>
            !(optStrTruthy (getVal reqCs c.name) && !optBoolTruthy c.overwrite)).map
            (fun c => ⟨c.name, c.value, setCookieOptions c⟩) ∧
      (∀ c ∈ cookies, optStrTruthy (getVal reqCs c.name) = true →
        optBoolTruthy c.overwrite = false →
        Event.logKeepCookie c.name ∈ (setCookies req resp (some cookies)).events) ∧
      (∀ c ∈ cookies, optStrTruthy (getVal reqCs c.name) = true →
        optBoolTruthy c.overwrite = true →
        Event.logOverwriteCookie c.name ∈ (setCookies req resp (some cookies)).events ∧
        (⟨c.name, c.value, setCookieOptions c⟩ : CookieCall) ∈
          (setCookies req resp (some cookies)).cookieCalls)) ∧
    (req.cookies = none →
      (setCookies req resp (some cookies)).cookieCalls =
        resp.cookieCalls ++ cookies.map (fun c => ⟨c.name, c.value, setCookieOptions c⟩)) := by
  constructor
  · intro reqCs hreq
    have hs : setCookies req resp (some cookies) = setCookiesLoop reqCs resp cookies := by
      simp [setCookies, hreq]
    rw [hs]
    refine ⟨setCookiesLoop_calls reqCs cookies resp, ?_, ?_⟩
    · intro c hc hA hB
      exact setCookiesLoop_keep_mem reqCs cookies resp c hc hA hB
    · intro c hc hA hB
      refine ⟨setCookiesLoop_overwrite_mem reqCs cookies resp c hc hA hB, ?_⟩
      rw [setCookiesLoop_calls reqCs cookies resp]
      refine List.mem_append_right _ ?_
      refine List.mem_map_of_mem _ ?_
      refine List.mem_filter.mpr ⟨hc, ?_⟩
      simp [hA, hB]
  · intro hreq
    have hs : setCookies req resp (some cookies) = cookies.foldl setCookie resp := by
      simp [setCookies, hreq]
    rw [hs]
    exact foldl_setCookie_calls cookies resp

/-- C8, witness applying the amended theorem at concrete inputs. -/
theorem C8_setCookies_amended_witness :
    (setCookies { cookies := some [("a", "v")] } {}
        (some [{ name := "a", value := "b" }])).cookieCalls = [] ∧
    Event.logKeepCookie "a" ∈
      (setCookies { cookies := some [("a", "v")] } {}
        (some [{ name := "a", value := "b" }])).events := by
  have h := (C8_setCookies_amended { cookies := some [("a", "v")] } {}
    [{ name := "a", value := "b" }]).1 [("a", "v")] rfl
  constructor
  · rw [h.1]
    rfl
  · exact h.2.1 { name := "a", value := "b" } (by simp) rfl rfl

/-! ## Claim C9 -/

/-- The grouping key of a route: `routeDef.prefix ?? ''`. -/
def prefixOf (rd : RouteDef) : String := rd.prefixStr.getD ""

/-- First-seen deduplication with an accumulator of already-seen keys. -/
def firstSeenGo (seen : List String) : List String → List String
  | [] => []
  | x :: xs => if x ∈ seen then firstSeenGo seen xs else x :: firstSeenGo (x :: seen) xs

/-- The distinct elements of a list in first-seen order. -/
def firstSeen (l : List String) : List String := firstSeenGo [] l

lemma firstSeenGo_mem (l : List String) :
    ∀ (seen : List String) (a : String),
      a ∈ firstSeenGo seen l ↔ a ∈ l ∧ a ∉ seen := by
  induction l with
  | nil => intro seen a; simp [firstSeenGo]
  | cons x xs ih =>
    intro seen a
    by_cases hx : x ∈ seen
    · rw [firstSeenGo, if_pos hx, ih]
      constructor
      · rintro ⟨h1, h2⟩
        exact ⟨List.mem_cons_of_mem _ h1, h2⟩
      · rintro ⟨h1, h2⟩
        rcases List.mem_cons.mp h1 with rfl | h1
        · exact absurd hx h2
        · exact ⟨h1, h2⟩
    · rw [firstSeenGo, if_neg hx]
      constructor
      · intro h
        rcases List.mem_cons.mp h with rfl | h
        · exact ⟨List.mem_cons_self _ _, hx⟩
        · obtain ⟨h1, h2⟩ := (ih _ _).mp h
          refine ⟨List.mem_cons_of_mem _ h1, fun hs => h2 (List.mem_cons_of_mem _ hs)⟩
      · rintro ⟨h1, h2⟩
        rcases List.mem_cons.mp h1 with rfl | h1
        · exact List.mem_cons_self _ _
        · by_cases hax : a = x
          · subst hax
            exact List.mem_cons_self _ _
          · refine List.mem_cons_of_mem _ ((ih _ _).mpr ⟨h1, ?_⟩)
            intro hs
            rcases List.mem_cons.mp hs with h | h
            · exact hax h
            · exact h2 h

lemma firstSeenGo_nodup (l : List String) :
    ∀ seen : List String, (firstSeenGo seen l).Nodup := by
  induction l with
  | nil => intro seen; simp [firstSeenGo]
  | cons x xs ih =>
    intro seen
    by_cases hx : x ∈ seen
    · rw [firstSeenGo, if_pos hx]
      exact ih seen
    · rw [firstSeenGo, if_neg hx]
      refine List.nodup_cons.mpr ⟨?_, ih (x :: seen)⟩
      intro hmem
      exact ((firstSeenGo_mem xs _ x).mp hmem).2 (List.mem_cons_self _ _)

lemma firstSeenGo_append (x : String) (l : List String) :
    ∀ seen : List String,
      firstSeenGo seen (l ++ [x]) =
        firstSeenGo seen l ++ (if x ∈ seen ∨ x ∈ l then [] else [x]) := by
  induction l with
  | nil =>
    intro seen
    by_cases h : x ∈ seen <;> simp [firstSeenGo, h]
  | cons y ys ih =>
    intro seen
    by_cases hy : y ∈ seen
    · have hiff : (x ∈ seen ∨ x ∈ ys) ↔ (x ∈ seen ∨ x ∈ y :: ys) := by
        constructor
        · rintro (h | h)
          · exact .inl h
          · exact .inr (List.mem_cons_of_mem _ h)
        · rintro (h | h)
          · exact .inl h
          · rcases List.mem_cons.mp h with rfl | h
            · exact .inl hy
            · exact .inr h
      rw [List.cons_append, firstSeenGo, if_pos hy, firstSeenGo, if_pos hy, ih seen,
        if_congr hiff rfl rfl]
    · have hiff : (x ∈ y :: seen ∨ x ∈ ys) ↔ (x ∈ seen ∨ x ∈ y :: ys) := by
        constructor
        · rintro (h | h)
          · rcases List.mem_cons.mp h with rfl | h
            · exact .inr (List.mem_cons_self _ _)
            · exact .inl h
          · exact .inr (List.mem_cons_of_mem _ h)
        · rintro (h | h)
          · exact .inl (List.mem_cons_of_mem _ h)
          · rcases List.mem_cons.mp h with rfl | h
            · exact .inl (List.mem_cons_self _ _)
            · exact .inr h
      rw [List.cons_append, firstSeenGo, if_neg hy, firstSeenGo, if_neg hy, ih (y :: seen),
        if_congr hiff rfl rfl, List.cons_append]

lemma firstSeen_mem (l : List String) (a : String) : a ∈ firstSeen l ↔ a ∈ l := by
  rw [firstSeen, firstSeenGo_mem]
  simp

lemma firstSeen_nodup (l : List String) : (firstSeen l).Nodup := firstSeenGo_nodup l []

lemma firstSeen_append (l : List String) (x : String) :
    firstSeen (l ++ [x]) = firstSeen l ++ (if x ∈ l then [] else [x]) := by
  rw [firstSeen, firstSeenGo_append]
  simp [firstSeen]

/-- Lookup over a keyed map of a function. -/
lemma getVal_map_key {α : Type} (g : String → α) (K : List String) (q : String) :
    getVal (K.map fun p => (p, g p)) q = if q ∈ K then some (g q) else none := by
  induction K with
  | nil => simp [getVal]
  | cons k ks ih =>
    simp only [List.map_cons, getVal]
    by_cases hk : k = q
    · subst hk
      simp
    · rw [if_neg hk, ih]
      by_cases hq : q ∈ ks
      · simp [hq, List.mem_cons, Ne.symm hk]
      · simp [hq, List.mem_cons, Ne.symm hk]

/-- In-place update over a keyed map of a function (distinct keys). -/
lemma updateVal_map_key {α : Type} (g : String → α) (f : α → α) (K : List String)
    (q : String) (hnd : K.Nodup) :
    updateVal (K.map fun p => (p, g p)) q f =
      K.map (fun p => (p, if p = q then f (g p) else g p)) := by
  induction K with
  | nil => simp [updateVal]
  | cons k ks ih =>
    obtain ⟨hk, hnd'⟩ := List.nodup_cons.mp hnd
    simp only [List.map_cons, updateVal]
    by_cases hkq : k = q
    · subst hkq
      rw [if_pos rfl]
      congr 1
      · rw [if_pos rfl]
      · refine List.map_congr_left ?_
        intro p hp
        have hpk : ¬ p = k := fun h => hk (h ▸ hp)
        rw [if_neg hpk]
    · rw [if_neg hkq, ih hnd']
      congr 1
      rw [if_neg hkq]

lemma updateVal_append_of_not_mem {α : Type} (l1 l2 : List (String × α)) (q : String)
    (f : α → α) (h : ∀ p ∈ l1, p.1 ≠ q) :
    updateVal (l1 ++ l2) q f = l1 ++ updateVal l2 q f := by
  induction l1 with
  | nil => simp
  | cons p rest ih =>
    have hp : p.1 ≠ q := h p (List.mem_cons_self _ _)
    simp only [List.cons_append, updateVal, if_neg hp]
    exact congrArg _ (ih (fun p hp => h p (List.mem_cons_of_mem _ hp)))

/-- The mount path the generator computes for a prefix: `prefix ? prefix : '/'`
joined with the (defaulted-if-falsy) base path. -/
def mountPathOf (res : ResourceDef) (p : String) : String :=
  urlPathJoin [if p = "" then "/" else p,
    if optStrTruthy res.basePath then res.basePath.getD "/" else "/"]

/-- The generated definition a prefix `p` receives after the routes
`processed` have been folded in. -/
def specGenDef (res : ResourceDef) (processed : List RouteDef) (p : String) :
    GeneratedDefinition :=
  { path := mountPathOf res p, mounted := processed.filter (fun rd => prefixOf rd = p) }

/-- The accumulator after folding `processed`. -/
def specAcc (res : ResourceDef) (processed : List RouteDef) :
    List (String × GeneratedDefinition) :=
  (firstSeen (processed.map prefixOf)).map (fun p => (p, specGenDef res processed p))

/-- One loop step on an already-seen prefix. -/
lemma generateDefinitionLoop_cons_mem (res : ResourceDef)
    (acc : List (String × GeneratedDefinition)) (logs : List Event)
    (rd : RouteDef) (rest : List RouteDef)
    (h : (getVal acc (prefixOf rd)).isSome = true) :
    generateDefinitionLoop res acc logs (rd :: rest) =
      generateDefinitionLoop res
        (updateVal acc (prefixOf rd) (fun g => { g with mounted := g.mounted ++ [rd] }))
        logs rest := by
  have h' : (getVal acc (rd.prefixStr.getD "")).isSome = true := h
  simp [generateDefinitionLoop, prefixOf, h']

/-- One loop step on a first-seen prefix. -/
lemma generateDefinitionLoop_cons_new (res : ResourceDef)
    (acc : List (String × GeneratedDefinition)) (logs : List Event)
    (rd : RouteDef) (rest : List RouteDef)
    (h : (getVal acc (prefixOf rd)).isSome = false) :
    generateDefinitionLoop res acc logs (rd :: rest) =
      generateDefinitionLoop res
        (updateVal (acc ++ [(prefixOf rd, { path := mountPathOf res (prefixOf rd), mounted := [] })])
          (prefixOf rd) (fun g => { g with mounted := g.mounted ++ [rd] }))
        (logs ++ (if optStrTruthy res.basePath then [] else [.logBasePathDefault res.name]))
        rest := by
  have h' : (getVal acc (rd.prefixStr.getD "")).isSome = false := h
  cases hb : optStrTruthy res.basePath
  · simp [generateDefinitionLoop, prefixOf, h', mountPathOf, hb]
  · cases hbp : res.basePath
    · rw [hbp] at hb
      simp [optStrTruthy] at hb
    · rw [hbp] at hb
      simp [generateDefinitionLoop, prefixOf, h', mountPathOf, hb, hbp]

/-- The step on an already-seen prefix turns the spec accumulator for
`processed` into the one for `processed ++ [rd]`. -/
lemma specAcc_step_mem (res : ResourceDef) (processed : List RouteDef) (rd : RouteDef)
    (h : prefixOf rd ∈ processed.map prefixOf) :
    updateVal (specAcc res processed) (prefixOf rd)
        (fun g => { g with mounted := g.mounted ++ [rd] }) =
      specAcc res (processed ++ [rd]) := by
  unfold specAcc
  rw [updateVal_map_key _ _ _ _ (firstSeen_nodup _)]
  have hfs : firstSeen ((processed ++ [rd]).map prefixOf) =
      firstSeen (processed.map prefixOf) := by
    rw [List.map_append, List.map_singleton, firstSeen_append, if_pos h, List.append_nil]
  rw [hfs]
  refine List.map_congr_left ?_
  intro p hp
  unfold specGenDef
  by_cases hpq : p = prefixOf rd
  · subst hpq
    simp [List.filter_append]
  · have hqp : ¬ prefixOf rd = p := fun hh => hpq hh.symm
    simp [hpq, hqp, List.filter_append]

/-- The step on a first-seen prefix likewise. -/
lemma specAcc_step_new (res : ResourceDef) (processed : List RouteDef) (rd : RouteDef)
    (h : prefixOf rd ∉ processed.map prefixOf) :
    updateVal (specAcc res processed ++
        [(prefixOf rd, { path := mountPathOf res (prefixOf rd), mounted := [] })])
        (prefixOf rd) (fun g => { g with mounted := g.mounted ++ [rd] }) =
      specAcc res (processed ++ [rd]) := by
  have hkeys : ∀ p ∈ specAcc res processed, p.1 ≠ prefixOf rd := by
    intro p hp
    unfold specAcc at hp
    obtain ⟨q, hq, rfl⟩ := List.mem_map.mp hp
    intro hcontra
    exact h (hcontra ▸ (firstSeen_mem _ _).mp hq)
  rw [updateVal_append_of_not_mem _ _ _ _ hkeys]
  have hsingle : updateVal
      [(prefixOf rd, { path := mountPathOf res (prefixOf rd), mounted := [] : GeneratedDefinition })]
      (prefixOf rd) (fun g => { g with mounted := g.mounted ++ [rd] }) =
      [(prefixOf rd, { path := mountPathOf res (prefixOf rd), mounted := [rd] })] := by
    simp [updateVal]
  rw [hsingle]
  unfold specAcc
  have hfs : firstSeen ((processed ++ [rd]).map prefixOf) =
      firstSeen (processed.map prefixOf) ++ [prefixOf rd] := by
    rw [List.map_append, List.map_singleton, firstSeen_append, if_neg h]
  rw [hfs, List.map_append, List.map_singleton]
  congr 1
  · refine List.map_congr_left ?_
    intro p hp
    have hpq : p ≠ prefixOf rd := by
      intro hcontra
      exact h (hcontra ▸ (firstSeen_mem _ _).mp hp)
    have hqp : ¬ prefixOf rd = p := fun hh => hpq hh.symm
    unfold specGenDef
    simp [List.filter_append, hpq, hqp]
  · unfold specGenDef
    have hfilter : processed.filter (fun rd' => prefixOf rd' = prefixOf rd) = [] := by
      rw [List.filter_eq_nil_iff]
      intro a ha
      simp only [decide_eq_true_eq]
      intro hcontra
      exact h (hcontra ▸ List.mem_map_of_mem prefixOf ha)
    simp [hfilter, List.filter_append]

/-- The generation loop computes the spec accumulator. -/
lemma generateDefinitionLoop_spec (res : ResourceDef) :
    ∀ (rds processed : List RouteDef) (logs : List Event),
      (generateDefinitionLoop res (specAcc res processed) logs rds).1 =
        specAcc res (processed ++ rds) := by
  intro rds
  induction rds with
  | nil => intro processed logs; simp [generateDefinitionLoop]
  | cons rd rest ih =>
    intro processed logs
    by_cases h : prefixOf rd ∈ processed.map prefixOf
    · have hsome : (getVal (specAcc res processed) (prefixOf rd)).isSome = true := by
        unfold specAcc
        rw [getVal_map_key]
        rw [if_pos ((firstSeen_mem _ _).mpr h)]
        rfl
      rw [generateDefinitionLoop_cons_mem res _ logs rd rest hsome,
        specAcc_step_mem res processed rd h, ih (processed ++ [rd]) logs]
      simp
    · have hnone : (getVal (specAcc res processed) (prefixOf rd)).isSome = false := by
        unfold specAcc
        rw [getVal_map_key]
        rw [if_neg (fun hc => h ((firstSeen_mem _ _).mp hc))]
        rfl
      rw [generateDefinitionLoop_cons_new res _ logs rd rest hnone,
        specAcc_step_new res processed rd h, ih (processed ++ [rd]) _]
      simp

/-- With a truthy base path the loop emits no diagnostics. -/
lemma generateDefinitionLoop_logs_truthy (res : ResourceDef)
    (hb : optStrTruthy res.basePath = true) :
    ∀ (rds : List RouteDef) (acc : List (String × GeneratedDefinition)) (logs : List Event),
      (generateDefinitionLoop res acc logs rds).2 = logs := by
  intro rds
  induction rds with
  | nil => intro acc logs; rfl
  | cons rd rest ih =>
    intro acc logs
    by_cases h : (getVal acc (prefixOf rd)).isSome = true
    · rw [generateDefinitionLoop_cons_mem res acc logs rd rest h, ih]
    · rw [generateDefinitionLoop_cons_new res acc logs rd rest (by simpa using h), ih, hb]
      simp

/-- The loop only appends diagnostics. -/
lemma generateDefinitionLoop_logs_mono (res : ResourceDef) :
    ∀ (rds : List RouteDef) (acc : List (String × GeneratedDefinition)) (logs : List Event),
      ∃ t, (generateDefinitionLoop res acc logs rds).2 = logs ++ t := by
  intro rds
  induction rds with
  | nil => intro acc logs; exact ⟨[], by simp [generateDefinitionLoop]⟩
  | cons rd rest ih =>
    intro acc logs
    by_cases h : (getVal acc (prefixOf rd)).isSome = true
    · rw [generateDefinitionLoop_cons_mem res acc logs rd rest h]
      exact ih _ logs
    · rw [generateDefinitionLoop_cons_new res acc logs rd rest (by simpa using h)]
      obtain ⟨t, ht⟩ := ih
        (updateVal (acc ++ [(prefixOf rd, { path := mountPathOf res (prefixOf rd), mounted := [] })])
          (prefixOf rd) (fun g => { g with mounted := g.mounted ++ [rd] }))
        (logs ++ (if optStrTruthy res.basePath then [] else [.logBasePathDefault res.name]))
      exact ⟨_, by rw [ht, List.append_assoc]⟩

lemma generateDefinition_fst (res : ResourceDef) :
    (generateDefinition res).1 = (generateDefinitionLoop res [] [] res.routes).1.map (·.2) := by
  unfold generateDefinition
  cases generateDefinitionLoop res [] [] res.routes
  rfl

lemma generateDefinition_snd (res : ResourceDef) :
    (generateDefinition res).2 = (generateDefinitionLoop res [] [] res.routes).2 := by
  unfold generateDefinition
  cases generateDefinitionLoop res [] [] res.routes
  rfl

/-- C9, counterexample.  The claim defaults the base path (with a diagnostic)
only when it is unset.  The generator tests `if (!basePath)`, a truthiness
check: with the set-but-empty base path `""` the default diagnostic fires
and the mount path is computed from the default `/` (giving `p/`), not from
the declared base path (which would give `p`). -/
theorem C9_counterexample :
    ((generateDefinition
        { name := "r", basePath := some "",
          routes := [{ path := "/x", prefixStr := some "p" }] }).1.map
      GeneratedDefinition.path) = ["p/"] ∧
    Event.logBasePathDefault "r" ∈
      (generateDefinition
        { name := "r", basePath := some "",
          routes := [{ path := "/x", prefixStr := some "p" }] }).2 ∧
    urlPathJoin ["p", ""] = "p" ∧
    ("p/" : String) ≠ "p" ∧
    ({ name := "r", basePath := some "",
        routes := [{ path := "/x", prefixStr := some "p" }] : ResourceDef }).basePath ≠
      none := by
  refine ⟨rfl, ?_, rfl, by decide, by simp⟩
  simp [generateDefinition, generateDefinitionLoop, prefixOf, getVal, updateVal, optStrTruthy]

/-- C9, amended: the routes of a resource are grouped by prefix onto one
shared sub-router per prefix, produced in first-seen prefix order, each
route mounted in declaration order; every sub-router's mount path is the
join of the prefix (or `/` when empty) with the resource's base path, which
is defaulted to `/` — with a diagnostic — exactly when it is unset or empty
(falsy). -/
theorem C9_generateDefinition_amended (res : ResourceDef) :
    (generateDefinition res).1 =
      (firstSeen (res.routes.map prefixOf)).map (fun p => specGenDef res res.routes p) ∧
    (Event.logBasePathDefault res.name ∈ (generateDefinition res).2 ↔
      (optStrTruthy res.basePath = false ∧ res.routes ≠ [])) := by
  constructor
  · have h := generateDefinitionLoop_spec res res.routes [] []
    have hempty : specAcc res [] = [] := by simp [specAcc, firstSeen, firstSeenGo]
    rw [hempty] at h
    rw [generateDefinition_fst, h]
    unfold specAcc
    rw [List.map_map]
    rfl
  · rw [generateDefinition_snd]
    constructor
    · intro hmem
      constructor
      · by_contra hb
        have hb' : optStrTruthy res.basePath = true := by
          cases h : optStrTruthy res.basePath
          · exact absurd h hb
          · rfl
        rw [generateDefinitionLoop_logs_truthy res hb' res.routes [] []] at hmem
        cases hmem
      · intro hroutes
        rw [hroutes] at hmem
        cases hmem
    · rintro ⟨hb, hroutes⟩
      cases hr : res.routes with
      | nil => exact absurd hr hroutes
      | cons rd rest =>
        have hnone : (getVal ([] : List (String × GeneratedDefinition)) (prefixOf rd)).isSome
            = false := rfl
        rw [generateDefinitionLoop_cons_new res [] [] rd rest hnone]
        obtain ⟨t, ht⟩ := generateDefinitionLoop_logs_mono res rest
          (updateVal ([] ++ [(prefixOf rd, { path := mountPathOf res (prefixOf rd), mounted := [] })])
            (prefixOf rd) (fun g => { g with mounted := g.mounted ++ [rd] }))
          ([] ++ (if optStrTruthy res.basePath then [] else [.logBasePathDefault res.name]))
        rw [ht]
        simp [hb]

/-! ## Claim C10 -/

/-- A middleware-array field was wrapped: absent stays absent; a present
array is replaced by a fresh array object holding the SAME function objects,
all of which now carry both tag properties. -/
def mwWrapped (σ σ' : Store) (old cur : Option Nat) : Prop :=
  match old with
  | none => cur = none
  | some aid => ∃ aid2, cur = some aid2 ∧ aid2 < σ'.nextId ∧
      σ'.fnArr aid2 = σ.fnArr aid ∧
      ∀ f ∈ σ.fnArr aid, σ'.fnTags f = rawTagged

/-- A methods entry was wrapped: a bare handler is untouched; a
`{ handler, middleware? }` entry keeps its handler and has its middleware
wrapped. -/
def entryWrapped (σ σ' : Store) (old cur : Option MethodEntry) : Prop :=
  match old with
  | none => True
  | some (.bare h) => cur = some (.bare h)
  | some (.withMw h mw) => ∃ mw2, cur = some (.withMw h mw2) ∧ mwWrapped σ σ' mw mw2

/-- A route object was wrapped in place. -/
def routeWrapped (σ σ' : Store) (old cur : RouteObj) : Prop :=
  mwWrapped σ σ' old.middleware cur.middleware ∧
  List.Forall₂ (fun a b => a.1 = b.1 ∧ entryWrapped σ σ' a.2 b.2) old.methods cur.methods

/-- What every step of `expressResource` preserves: the allocator only
grows, previously allocated arrays are untouched, tags are only ever set to
the raw-middleware tag, and the routes arrays are never written. -/
def Progress (σ σ' : Store) : Prop :=
  σ.nextId ≤ σ'.nextId ∧
  (∀ a, a < σ.nextId → σ'.fnArr a = σ.fnArr a) ∧
  (∀ f, σ'.fnTags f = σ.fnTags f ∨ σ'.fnTags f = rawTagged) ∧
  σ'.routeArr = σ.routeArr

lemma Progress.refl (σ : Store) : Progress σ σ :=
  ⟨le_refl _, fun _ _ => rfl, fun _ => .inl rfl, rfl⟩

lemma Progress.trans {σ σ1 σ2 : Store} (h1 : Progress σ σ1) (h2 : Progress σ1 σ2) :
    Progress σ σ2 := by
  obtain ⟨ha1, hb1, hc1, hd1⟩ := h1
  obtain ⟨ha2, hb2, hc2, hd2⟩ := h2
  refine ⟨le_trans ha1 ha2, ?_, ?_, hd2.trans hd1⟩
  · intro a ha
    rw [hb2 a (lt_of_lt_of_le ha ha1), hb1 a ha]
  · intro f
    rcases hc2 f with h | h
    · rw [h]
      exact hc1 f
    · exact .inr h

/-- An array id in bounds. -/
def mwBound (σ : Store) (mw : Option Nat) : Prop :=
  ∀ a, mw = some a → a < σ.nextId

def entryBound (σ : Store) : Option MethodEntry → Prop
  | some (.withMw _ mw) => mwBound σ mw
  | _ => True

def routeBound (σ : Store) (ro : RouteObj) : Prop :=
  mwBound σ ro.middleware ∧ ∀ p ∈ ro.methods, entryBound σ p.2

lemma mwBound_mono {σ σ' : Store} (h : σ.nextId ≤ σ'.nextId) {mw : Option Nat}
    (hb : mwBound σ mw) : mwBound σ' mw :=
  fun a ha => lt_of_lt_of_le (hb a ha) h

lemma entryBound_mono {σ σ' : Store} (h : σ.nextId ≤ σ'.nextId) {e : Option MethodEntry}
    (hb : entryBound σ e) : entryBound σ' e := by
  cases e with
  | none => trivial
  | some me =>
    cases me with
    | bare _ => trivial
    | withMw hh mw => exact mwBound_mono h hb

lemma routeBound_mono {σ σ' : Store} (h : σ.nextId ≤ σ'.nextId) {ro : RouteObj}
    (hb : routeBound σ ro) : routeBound σ' ro :=
  ⟨mwBound_mono h hb.1, fun p hp => entryBound_mono h (hb.2 p hp)⟩

lemma mwWrapped_mono {σ σ1 σ2 : Store} {old cur : Option Nat}
    (hw : mwWrapped σ σ1 old cur) (hP : Progress σ1 σ2) : mwWrapped σ σ2 old cur := by
  cases old with
  | none => exact hw
  | some aid =>
    obtain ⟨aid2, hc, hlt, harr, htags⟩ := hw
    obtain ⟨ha, hb, hc2, -⟩ := hP
    refine ⟨aid2, hc, lt_of_lt_of_le hlt ha, ?_, ?_⟩
    · rw [hb aid2 hlt, harr]
    · intro f hf
      rcases hc2 f with h | h
      · rw [h]
        exact htags f hf
      · exact h

lemma mwWrapped_base {σ σ1 σ2 : Store} {old cur : Option Nat}
    (hP : Progress σ σ1) (hb : mwBound σ old)
    (hw : mwWrapped σ1 σ2 old cur) : mwWrapped σ σ2 old cur := by
  cases old with
  | none => exact hw
  | some aid =>
    obtain ⟨aid2, hc, hlt, harr, htags⟩ := hw
    have haid : aid < σ.nextId := hb aid rfl
    have harr1 : σ1.fnArr aid = σ.fnArr aid := hP.2.1 aid haid
    exact ⟨aid2, hc, hlt, by rw [harr, harr1], by rw [← harr1]; exact htags⟩

lemma entryWrapped_mono {σ σ1 σ2 : Store} {old cur : Option MethodEntry}
    (hw : entryWrapped σ σ1 old cur) (hP : Progress σ1 σ2) : entryWrapped σ σ2 old cur := by
  cases old with
  | none => trivial
  | some me =>
    cases me with
    | bare h => exact hw
    | withMw h mw =>
      obtain ⟨mw2, hc, hww⟩ := hw
      exact ⟨mw2, hc, mwWrapped_mono hww hP⟩

lemma entryWrapped_base {σ σ1 σ2 : Store} {old cur : Option MethodEntry}
    (hP : Progress σ σ1) (hb : entryBound σ old)
    (hw : entryWrapped σ1 σ2 old cur) : entryWrapped σ σ2 old cur := by
  cases old with
  | none => trivial
  | some me =>
    cases me with
    | bare h => exact hw
    | withMw h mw =>
      obtain ⟨mw2, hc, hww⟩ := hw
      exact ⟨mw2, hc, mwWrapped_base hP hb hww⟩

lemma forall2_entry_mono {σ σ1 σ2 : Store}
    {l1 l2 : List (String × Option MethodEntry)} (hP : Progress σ1 σ2)
    (h : List.Forall₂ (fun a b => a.1 = b.1 ∧ entryWrapped σ σ1 a.2 b.2) l1 l2) :
    List.Forall₂ (fun a b => a.1 = b.1 ∧ entryWrapped σ σ2 a.2 b.2) l1 l2 :=
  h.imp fun _ _ hab => ⟨hab.1, entryWrapped_mono hab.2 hP⟩

lemma forall2_entry_base {σ σ1 σ2 : Store} (hP : Progress σ σ1) :
    ∀ {l1 l2 : List (String × Option MethodEntry)},
      (∀ p ∈ l1, entryBound σ p.2) →
      List.Forall₂ (fun a b => a.1 = b.1 ∧ entryWrapped σ1 σ2 a.2 b.2) l1 l2 →
      List.Forall₂ (fun a b => a.1 = b.1 ∧ entryWrapped σ σ2 a.2 b.2) l1 l2 := by
  intro l1 l2 hb h
  induction h with
  | nil => exact .nil
  | @cons a b t1 t2 hab htail ih =>
    refine List.Forall₂.cons
      ⟨hab.1, entryWrapped_base hP (hb _ (List.mem_cons_self _ _)) hab.2⟩ (ih ?_)
    exact fun p hp => hb p (List.mem_cons_of_mem _ hp)

lemma routeWrapped_mono {σ σ1 σ2 : Store} {old cur : RouteObj}
    (hw : routeWrapped σ σ1 old cur) (hP : Progress σ1 σ2) : routeWrapped σ σ2 old cur :=
  ⟨mwWrapped_mono hw.1 hP, forall2_entry_mono hP hw.2⟩

lemma routeWrapped_base {σ σ1 σ2 : Store} {old cur : RouteObj}
    (hP : Progress σ σ1) (hb : routeBound σ old)
    (hw : routeWrapped σ1 σ2 old cur) : routeWrapped σ σ2 old cur :=
  ⟨mwWrapped_base hP hb.1 hw.1, forall2_entry_base hP hb.2 hw.2⟩

lemma tagFold_spec (fns : List Nat) :
    ∀ σ : Store,
      (fns.foldl (fun s f => (expressMiddlewareFn s f).1) σ).fnArr = σ.fnArr ∧
      (fns.foldl (fun s f => (expressMiddlewareFn s f).1) σ).routeObj = σ.routeObj ∧
      (fns.foldl (fun s f => (expressMiddlewareFn s f).1) σ).routeArr = σ.routeArr ∧
      (fns.foldl (fun s f => (expressMiddlewareFn s f).1) σ).nextId = σ.nextId ∧
      (∀ f ∈ fns, (fns.foldl (fun s f => (expressMiddlewareFn s f).1) σ).fnTags f = rawTagged) ∧
      (∀ f, (fns.foldl (fun s f => (expressMiddlewareFn s f).1) σ).fnTags f = σ.fnTags f ∨
        (fns.foldl (fun s f => (expressMiddlewareFn s f).1) σ).fnTags f = rawTagged) := by
  induction fns with
  | nil =>
    intro σ
    exact ⟨rfl, rfl, rfl, rfl, fun f hf => absurd hf (List.not_mem_nil f), fun f => .inl rfl⟩
  | cons g rest ih =>
    intro σ
    rw [List.foldl_cons]
    obtain ⟨harr, hro, hra, hni, htag, hdis⟩ := ih ((expressMiddlewareFn σ g).1)
    refine ⟨harr, hro, hra, hni, ?_, ?_⟩
    · intro f hf
      rcases List.mem_cons.mp hf with rfl | hf'
      · rcases hdis f with h | h
        · rw [h]
          simp [expressMiddlewareFn]
        · exact h
      · exact htag f hf'
    · intro f
      rcases hdis f with h | h
      · rw [h]
        by_cases hfg : f = g
        · subst hfg
          exact .inr (by simp [expressMiddlewareFn])
        · exact .inl (by simp [expressMiddlewareFn, hfg])
      · exact .inr h

lemma mapExpressMiddleware_spec (fns : List Nat) (σ : Store) :
    (mapExpressMiddleware σ fns).2 = fns ∧
    (mapExpressMiddleware σ fns).1.fnArr = σ.fnArr ∧
    (mapExpressMiddleware σ fns).1.routeObj = σ.routeObj ∧
    (mapExpressMiddleware σ fns).1.routeArr = σ.routeArr ∧
    (mapExpressMiddleware σ fns).1.nextId = σ.nextId ∧
    (∀ f ∈ fns, (mapExpressMiddleware σ fns).1.fnTags f = rawTagged) ∧
    (∀ f, (mapExpressMiddleware σ fns).1.fnTags f = σ.fnTags f ∨
      (mapExpressMiddleware σ fns).1.fnTags f = rawTagged) := by
  obtain ⟨harr, hro, hra, hni, htag, hdis⟩ := tagFold_spec fns σ
  exact ⟨rfl, harr, hro, hra, hni, htag, hdis⟩

lemma mapMwOpt_spec (σ : Store) (old : Option Nat) :
    Progress σ (mapMwOpt σ old).1 ∧
    (mapMwOpt σ old).1.routeObj = σ.routeObj ∧
    mwWrapped σ (mapMwOpt σ old).1 old (mapMwOpt σ old).2 ∧
    mwBound (mapMwOpt σ old).1 (mapMwOpt σ old).2 := by
  cases old with
  | none =>
    refine ⟨Progress.refl σ, rfl, rfl, ?_⟩
    intro a ha
    cases ha
  | some aid =>
    obtain ⟨-, harr, hro, hra, hni, htag, hdis⟩ := mapExpressMiddleware_spec (σ.fnArr aid) σ
    have hstep : mapMwOpt σ (some aid) =
        (((allocFnArr ((mapExpressMiddleware σ (σ.fnArr aid)).1)
            ((mapExpressMiddleware σ (σ.fnArr aid)).2)).1),
         some ((allocFnArr ((mapExpressMiddleware σ (σ.fnArr aid)).1)
            ((mapExpressMiddleware σ (σ.fnArr aid)).2)).2)) := by
      simp [mapMwOpt, allocFnArr, mapExpressMiddleware]
    set σ1 := (mapExpressMiddleware σ (σ.fnArr aid)).1 with hσ1
    have hfns : (mapExpressMiddleware σ (σ.fnArr aid)).2 = σ.fnArr aid := by
      simp [mapExpressMiddleware]
    rw [hstep, hfns]
    constructor
    · refine ⟨?_, ?_, ?_, ?_⟩
      · simp [allocFnArr, hni]
      · intro a ha
        have hane : a ≠ σ1.nextId := by
          rw [hni]
          omega
        simp [allocFnArr, hane, harr]
      · intro f
        simp only [allocFnArr]
        exact hdis f
      · simp [allocFnArr, hra]
    constructor
    · simp [allocFnArr, hro]
    constructor
    · refine ⟨σ1.nextId, rfl, ?_, ?_, ?_⟩
      · simp [allocFnArr]
      · simp [allocFnArr]
      · intro f hf
        simp only [allocFnArr]
        exact htag f hf
    · intro a ha
      simp only [allocFnArr] at ha ⊢
      cases ha
      simp [allocFnArr]

lemma processMethodEntry_spec (σ : Store) (e : Option MethodEntry)
    (hd : e ≠ none) (hb : entryBound σ e) :
    ∃ σ' e', processMethodEntry σ e = .ok (σ', e') ∧ Progress σ σ' ∧
      σ'.routeObj = σ.routeObj ∧ entryWrapped σ σ' e e' := by
  cases e with
  | none => exact absurd rfl hd
  | some me =>
    cases me with
    | bare h =>
      exact ⟨σ, some (.bare h), rfl, Progress.refl σ, rfl, rfl⟩
    | withMw h mw =>
      obtain ⟨hP, hro, hw, -⟩ := mapMwOpt_spec σ mw
      exact ⟨(mapMwOpt σ mw).1, some (.withMw h (mapMwOpt σ mw).2), rfl, hP, hro,
        ⟨(mapMwOpt σ mw).2, rfl, hw⟩⟩

lemma processMethods_spec (ms : List (String × Option MethodEntry)) :
    ∀ σ : Store, (∀ p ∈ ms, p.2 ≠ none) → (∀ p ∈ ms, entryBound σ p.2) →
      ∃ σ' ms', processMethods σ ms = .ok (σ', ms') ∧ Progress σ σ' ∧
        σ'.routeObj = σ.routeObj ∧
        List.Forall₂ (fun a b => a.1 = b.1 ∧ entryWrapped σ σ' a.2 b.2) ms ms' := by
  induction ms with
  | nil =>
    intro σ _ _
    exact ⟨σ, [], rfl, Progress.refl σ, rfl, .nil⟩
  | cons p rest ih =>
    intro σ hd hb
    obtain ⟨m, e⟩ := p
    obtain ⟨σ1, e', he, hP1, hro1, hw1⟩ := processMethodEntry_spec σ e
      (hd (m, e) (List.mem_cons_self _ _)) (hb (m, e) (List.mem_cons_self _ _))
    obtain ⟨σ2, ms', hms, hP2, hro2, hw2⟩ := ih σ1
      (fun q hq => hd q (List.mem_cons_of_mem _ hq))
      (fun q hq => entryBound_mono hP1.1 (hb q (List.mem_cons_of_mem _ hq)))
    refine ⟨σ2, (m, e') :: ms', ?_, hP1.trans hP2, hro2.trans hro1, ?_⟩
    · simp [processMethods, he, hms, Bind.bind, Except.bind]
    · refine List.Forall₂.cons ⟨rfl, entryWrapped_mono hw1 hP2⟩ ?_
      exact forall2_entry_base hP1 (fun q hq => hb q (List.mem_cons_of_mem _ hq)) hw2


lemma processRoute_spec (σ : Store) (rid : Nat)
    (hb : routeBound σ (σ.routeObj rid))
    (hd : ∀ p ∈ (σ.routeObj rid).methods, p.2 ≠ none) :
    ∃ σ', processRoute σ rid = .ok σ' ∧ Progress σ σ' ∧
      (∀ x, x ≠ rid → σ'.routeObj x = σ.routeObj x) ∧
      routeWrapped σ σ' (σ.routeObj rid) (σ'.routeObj rid) := by
  obtain ⟨hP1, hro1, hw1, hbd1⟩ := mapMwOpt_spec σ (σ.routeObj rid).middleware
  obtain ⟨σ3, ms', heq, hP23, hro3, hw3⟩ := processMethods_spec (σ.routeObj rid).methods
    { (mapMwOpt σ (σ.routeObj rid).middleware).1 with
      routeObj := fun x => if x = rid then
        { (mapMwOpt σ (σ.routeObj rid).middleware).1.routeObj rid with
          middleware := (mapMwOpt σ (σ.routeObj rid).middleware).2 }
        else (mapMwOpt σ (σ.routeObj rid).middleware).1.routeObj x }
    hd (fun p hp => entryBound_mono hP1.1 (hb.2 p hp))
  have hP12 : Progress (mapMwOpt σ (σ.routeObj rid).middleware).1
      { (mapMwOpt σ (σ.routeObj rid).middleware).1 with
        routeObj := fun x => if x = rid then
          { (mapMwOpt σ (σ.routeObj rid).middleware).1.routeObj rid with
            middleware := (mapMwOpt σ (σ.routeObj rid).middleware).2 }
          else (mapMwOpt σ (σ.routeObj rid).middleware).1.routeObj x } :=
    ⟨le_refl _, fun _ _ => rfl, fun _ => .inl rfl, rfl⟩
  have hP34 : Progress σ3
      { σ3 with routeObj := fun x => if x = rid then
        { σ3.routeObj rid with methods := ms' } else σ3.routeObj x } :=
    ⟨le_refl _, fun _ _ => rfl, fun _ => .inl rfl, rfl⟩
  have hro2rid : (if rid = rid then
      { (mapMwOpt σ (σ.routeObj rid).middleware).1.routeObj rid with
        middleware := (mapMwOpt σ (σ.routeObj rid).middleware).2 }
      else (mapMwOpt σ (σ.routeObj rid).middleware).1.routeObj rid) =
      { σ.routeObj rid with middleware := (mapMwOpt σ (σ.routeObj rid).middleware).2 } := by
    rw [if_pos rfl, hro1]
  refine ⟨{ σ3 with routeObj := fun x => if x = rid then
      { σ3.routeObj rid with methods := ms' } else σ3.routeObj x }, ?_, ?_, ?_, ?_⟩
  · simp [processRoute, heq, Bind.bind, Except.bind]
  · exact hP1.trans (hP12.trans (hP23.trans hP34))
  · intro x hx
    simp only [if_neg hx]
    have h3 : σ3.routeObj x = _ := congrFun hro3 x
    rw [h3]
    simp only [if_neg hx]
    exact congrFun hro1 x
  · have hrid4 : (if rid = rid then { σ3.routeObj rid with methods := ms' }
        else σ3.routeObj rid) = { σ3.routeObj rid with methods := ms' } := if_pos rfl
    have hrid3 : σ3.routeObj rid =
        { σ.routeObj rid with middleware := (mapMwOpt σ (σ.routeObj rid).middleware).2 } := by
      have := congrFun hro3 rid
      rw [this]
      exact hro2rid
    simp only [hrid4, hrid3]
    constructor
    · exact mwWrapped_mono hw1 (hP12.trans (hP23.trans hP34))
    · have hbase := forall2_entry_base (σ := σ) (hP1.trans hP12) hb.2 hw3
      exact forall2_entry_mono hP34 hbase

lemma processRoutes_spec (rids : List Nat) :
    ∀ σ : Store, rids.Nodup →
      (∀ rid ∈ rids, routeBound σ (σ.routeObj rid)) →
      (∀ rid ∈ rids, ∀ p ∈ (σ.routeObj rid).methods, p.2 ≠ none) →
      ∃ σ', processRoutes σ rids = .ok σ' ∧ Progress σ σ' ∧
        (∀ x, x ∉ rids → σ'.routeObj x = σ.routeObj x) ∧
        ∀ rid ∈ rids, routeWrapped σ σ' (σ.routeObj rid) (σ'.routeObj rid) := by
  induction rids with
  | nil =>
    intro σ _ _ _
    exact ⟨σ, rfl, Progress.refl σ, fun _ _ => rfl, fun _ h => absurd h (List.not_mem_nil _)⟩
  | cons rid rest ih =>
    intro σ hnd hrb hdef
    obtain ⟨hr1, hnd'⟩ := List.nodup_cons.mp hnd
    obtain ⟨σ1, he1, hP1, hother1, hw1⟩ := processRoute_spec σ rid
      (hrb rid (List.mem_cons_self _ _)) (hdef rid (List.mem_cons_self _ _))
    have hsame : ∀ r ∈ rest, σ1.routeObj r = σ.routeObj r := by
      intro r hr
      exact hother1 r (fun hcontra => hr1 (hcontra ▸ hr))
    obtain ⟨σ2, he2, hP2, hother2, hw2⟩ := ih σ1 hnd'
      (fun r hr => by
        rw [hsame r hr]
        exact routeBound_mono hP1.1 (hrb r (List.mem_cons_of_mem _ hr)))
      (fun r hr => by
        rw [hsame r hr]
        exact hdef r (List.mem_cons_of_mem _ hr))
    refine ⟨σ2, ?_, hP1.trans hP2, ?_, ?_⟩
    · simp [processRoutes, he1, he2, Bind.bind, Except.bind]
    · intro x hx
      have hx1 : x ∉ rest := fun h => hx (List.mem_cons_of_mem _ h)
      have hx2 : x ≠ rid := fun h => hx (h ▸ List.mem_cons_self _ _)
      rw [hother2 x hx1, hother1 x hx2]
    · intro r hr
      rcases List.mem_cons.mp hr with rfl | hr'
      · have hkeep : σ2.routeObj r = σ1.routeObj r := hother2 r hr1
        rw [hkeep]
        exact routeWrapped_mono hw1 hP2
      · have hw := hw2 r hr'
        rw [hsame r hr'] at hw
        exact routeWrapped_base hP1 (hrb r (List.mem_cons_of_mem _ hr')) hw

/-- C10, confirmed: for every well-formed store (distinct route objects,
referenced array ids allocated, method entries defined), the deprecated
`expressResource` succeeds and (a) returns a shallow copy sharing the input's
`routes` array reference and plain fields, with the copy's resource-level
middleware replaced by a fresh array of the same function objects; (b)
mutates the caller's input in place: every route object reachable from the
shared routes array now holds, for its route-level middleware and for each
`{ handler, middleware }` method entry, a fresh array of the same function
objects, and `expressMiddleware` has written both the `__expressMiddleware`
and `__middlewareType := RAW` tag properties onto every one of those
function objects. -/
theorem C10_expressResource_mutates (σ : Store) (r : ResourceVal)
    (hnd : (σ.routeArr r.routes).Nodup)
    (hrb : ∀ rid ∈ σ.routeArr r.routes, routeBound σ (σ.routeObj rid))
    (hdef : ∀ rid ∈ σ.routeArr r.routes, ∀ p ∈ (σ.routeObj rid).methods, p.2 ≠ none) :
    ∃ out σ', expressResource σ r = .ok (out, σ') ∧
      out.routes = r.routes ∧ out.name = r.name ∧ out.basePath = r.basePath ∧
      mwWrapped σ σ' r.middleware out.middleware ∧
      σ'.routeArr = σ.routeArr ∧
      ∀ rid ∈ σ.routeArr r.routes,
        routeWrapped σ σ' (σ.routeObj rid) (σ'.routeObj rid) := by
  obtain ⟨hP1, hro1, hw1, hbd1⟩ := mapMwOpt_spec σ r.middleware
  have hra1 : (mapMwOpt σ r.middleware).1.routeArr = σ.routeArr := hP1.2.2.2
  obtain ⟨σ2, he2, hP2, hother2, hw2⟩ := processRoutes_spec (σ.routeArr r.routes)
    (mapMwOpt σ r.middleware).1 hnd
    (fun rid hr => by
      rw [congrFun hro1 rid]
      exact routeBound_mono hP1.1 (hrb rid hr))
    (fun rid hr => by
      rw [congrFun hro1 rid]
      exact hdef rid hr)
  refine ⟨{ r with middleware := (mapMwOpt σ r.middleware).2 }, σ2, ?_, rfl, rfl, rfl,
    ?_, ?_, ?_⟩
  · have harg : (mapMwOpt σ r.middleware).1.routeArr r.routes = σ.routeArr r.routes := by
      rw [hra1]
    simp only [expressResource, Bind.bind, Except.bind]
    rw [harg, he2]
  · exact mwWrapped_mono hw1 hP2
  · rw [hP2.2.2.2, hra1]
  · intro rid hr
    have hw := hw2 rid hr
    rw [congrFun hro1 rid] at hw
    exact routeWrapped_base hP1 (hrb rid hr) hw

/-- A one-route, one-middleware-function store for the witness. -/
def witnessStore : Store :=
  { fnTags := fun _ => {}
    fnArr := fun a => if a = 0 then [5] else []
    routeObj := fun x => if x = 0 then
        { middleware := some 0, methods := [("get", some (.bare 7))] }
      else {}
    routeArr := fun _ => [0]
    nextId := 1 }

/-- The resource value handed to the deprecated `expressResource`. -/
def witnessResource : ResourceVal :=
  { name := "res", basePath := none, middleware := none, routes := 3 }

/-- C10, witness: the theorem applied to the concrete one-route store. -/
theorem C10_expressResource_mutates_witness :
    ∃ out σ', expressResource witnessStore witnessResource = .ok (out, σ') ∧
      out.routes = witnessResource.routes ∧
      ∀ rid ∈ witnessStore.routeArr witnessResource.routes,
        routeWrapped witnessStore σ'
          (witnessStore.routeObj rid) (σ'.routeObj rid) := by
  obtain ⟨out, σ', h1, h2, -, -, -, -, h7⟩ :=
    C10_expressResource_mutates witnessStore witnessResource
      (by simp [witnessStore])
      (by
        intro rid hr
        simp [witnessStore] at hr
        subst hr
        refine ⟨fun a ha => by simp [witnessStore] at ha ⊢; omega, ?_⟩
        intro p hp
        simp [witnessStore] at hp
        rw [hp]
        trivial)
      (by
        intro rid hr p hp
        simp [witnessStore] at hr
        subst hr
        simp [witnessStore] at hp
        rw [hp]
        simp)
  exact ⟨out, σ', h1, h2, h7⟩

end Unthink
